import Mathlib

/-!
# Expense tracker: the state layer of `common.js`

A shallow embedding of the storage and derivation functions of `src/common.js`
(`loadState`, `saveState`, `calculateTotal`, `monthSummary`, the transaction and
budget mutators, `spentForCategoryThisMonth`) together with the properties the
specification states about them.

Modelling decisions.

* A JavaScript number (`JsNum`) is `NaN`, an infinity or a finite value, held
  as the rational it stands for.  Addition is that of IEEE-754 binary64: the
  exact sum rounded to the nearest double, ties to even (`roundD`), overflow
  to an infinity.  The one thing left out is the sign of zero.
* A number stored in the document (`JsVal.num`) is the double that
  `JSON.parse` produced.  A numeral beyond the range of a double, which
  `JSON.parse` reads as an infinity and `JSON.stringify` never writes, is
  outside the model.
* A state in memory (`MemState`), the argument of `saveState`, may hold `NaN`
  or an infinity; `JSON.stringify` writes either as `null` (`MemState.toJson`).
  The transaction and budget mutators take the record of the caller as the JSON
  value that is written for it.
* A JSON scalar stored in a field is a `JsVal`; a property that is absent
  (reads as `undefined`) is `none`.
* `localStorage` is reduced to the one entry under `STORAGE_KEY`: `none` when
  `getItem` gives `null`, `some raw` otherwise.
* The built-ins the code calls are parameters: `JSON.parse`, `JSON.stringify`
  and the string case of `Number(..)` are the fields of `Host`; the text
  `Math.random().toString(36).slice(2,9)` and the month key
  `new Date().toISOString().slice(0,7)` are arguments of the functions that
  compute them.
* `JSON.parse` is taken to return a document object (`AppState`, each of whose
  properties may be absent); a text that parses to `null`, a number, a string
  or an array is outside the model.  Theorems that read back what a mutator
  wrote assume the codec law `Host.Faithful`; `numeralHost` is a host that has
  it.
* `String.prototype.slice(0,7)` counts UTF-16 code units; the model counts
  characters, which agrees on every string without astral characters.
* `console.error` and the `stateChanged` event of `saveState` have no effect on
  the stored document and are left out.
-/

namespace ExpenseTracker

/-! ## Values -/

/-- A JSON scalar as it may sit in a field of the persisted document. -/
inductive JsVal where
  | null
  | bool (b : Bool)
  | num (q : ℚ)
  | str (s : String)
  deriving DecidableEq

/-- A JavaScript number: `NaN`, an infinity (`neg` for the negative one) or a
finite value. -/
inductive JsNum where
  | nan
  | inf (neg : Bool)
  | fin (q : ℚ)
  deriving DecidableEq

/-- The integer nearest to `x`, the even one of the two when `x` lies half way
between them. -/
def roundHalfEven (x : ℚ) : ℤ :=
  if x - ⌊x⌋ < 1 / 2 then ⌊x⌋
  else if 1 / 2 < x - ⌊x⌋ then ⌊x⌋ + 1
  else if ⌊x⌋ % 2 = 0 then ⌊x⌋ else ⌊x⌋ + 1

/-- The exponent of the last place of the doubles near `q`: 52 below the
binary exponent of `q`, and no lower than that of the subnormals. -/
def ulpExp (q : ℚ) : ℤ := max (Int.log 2 |q| - 52) (-1074)

/-- The double nearest to the rational `q` (IEEE-754 binary64, round to
nearest, ties to even), an infinity when the rounded value is out of range. -/
def roundD (q : ℚ) : JsNum :=
  if 2 ^ 1024 ≤ |(roundHalfEven (q / 2 ^ ulpExp q) : ℚ) * 2 ^ ulpExp q| then
    .inf (decide (q < 0))
  else .fin ((roundHalfEven (q / 2 ^ ulpExp q) : ℚ) * 2 ^ ulpExp q)

namespace JsNum

/-- The sum `a + b` of two numbers: the rounded sum of two finite values, an
infinity absorbs a finite value, opposite infinities give `NaN`, and `NaN` is
absorbing. -/
def add : JsNum → JsNum → JsNum
  | fin a, fin b => roundD (a + b)
  | inf s, fin _ => inf s
  | fin _, inf s => inf s
  | inf s, inf t => if s = t then inf s else nan
  | nan, _ => nan
  | _, nan => nan

/-- The unary minus `-a`. -/
def neg : JsNum → JsNum
  | fin a => fin (-a)
  | inf s => inf (!s)
  | nan => nan

instance : Add JsNum := ⟨add⟩
instance : Neg JsNum := ⟨neg⟩
instance : Sub JsNum := ⟨fun a b => a + -b⟩
instance : Zero JsNum := ⟨fin 0⟩

/-- The expression `x || 0` on a number `x`: `NaN` and `0` are falsy. -/
def orZero : JsNum → JsNum
  | fin q => if q = 0 then fin 0 else fin q
  | inf s => inf s
  | nan => fin 0

end JsNum

/-- Truthiness of a stored scalar (`null`, `false`, `0` and `""` are falsy). -/
def truthy : JsVal → Bool
  | .null => false
  | .bool b => b
  | .num q => decide (q ≠ 0)
  | .str s => decide (s ≠ "")

/-- One income or expense record: a JavaScript object read through the six
properties the program uses, each of which may be absent. -/
structure Transaction where
  id : Option String
  type : Option String
  amount : Option JsVal
  date : Option String
  category : Option String
  notes : Option String
  deriving DecidableEq

/-- A spending limit for one category. -/
structure Budget where
  category : Option String
  limit : Option JsVal
  deriving DecidableEq

/-- The persisted document.  A top-level property may be absent: the text
`{}` parses to a document with none of the three. -/
structure AppState where
  startingBalance : Option JsVal
  transactions : Option (List Transaction)
  budgets : Option (List Budget)
  deriving DecidableEq

/-- The built-ins of the page that the state layer calls. -/
structure Host where
  /-- The result of `Number(s)` for a string `s`. -/
  stringToNumber : String → JsNum
  /-- The text `JSON.stringify(s)`. -/
  stringify : AppState → String
  /-- The value `JSON.parse(raw)`; `none` when it throws. -/
  parse : String → Option AppState

/-- The entry of `localStorage` under `STORAGE_KEY`. -/
abbrev Storage := Option String

/-- The coercion `Number(v)` of a property value (`none` is `undefined`). -/
def toNumber (h : Host) : Option JsVal → JsNum
  | none => .nan
  | some .null => .fin 0
  | some (.bool b) => if b then .fin 1 else .fin 0
  | some (.num q) => .fin q
  | some (.str s) => h.stringToNumber s

/-! ## The state store -/

/-- The literal `{startingBalance:0,transactions:[],budgets:[]}`. -/
def defaultState : AppState :=
  { startingBalance := some (.num 0), transactions := some [], budgets := some [] }

/-- The function `loadState()`: the default document when the entry is absent,
empty or does not parse, the parsed value otherwise. -/
def loadState (h : Host) (ls : Storage) : AppState :=
  match ls with
  | none => defaultState
  | some raw =>
    if raw = "" then defaultState
    else
      match h.parse raw with
      | some s => s
      | none => defaultState

/-- The function `saveState(s)`: the entry becomes `JSON.stringify(s)`. -/
def saveState (h : Host) (s : AppState) : Storage :=
  some (h.stringify s)

/-! ## States in memory

The argument of `saveState` is a value built in memory, whose numbers may be
`NaN` or an infinity; `JSON.stringify` writes either as `null`
(ECMA-262, SerializeJSONProperty), so the document that reaches the store is
the image under `toJson`. -/

/-- A scalar held in memory: as a JSON scalar, except that a number is any
JavaScript number. -/
inductive MemVal where
  | null
  | bool (b : Bool)
  | num (n : JsNum)
  | str (s : String)
  deriving DecidableEq

/-- A transaction record held in memory. -/
structure MemTransaction where
  id : Option String
  type : Option String
  amount : Option MemVal
  date : Option String
  category : Option String
  notes : Option String
  deriving DecidableEq

/-- A budget held in memory. -/
structure MemBudget where
  category : Option String
  limit : Option MemVal
  deriving DecidableEq

/-- A state held in memory: what a caller hands to `saveState`. -/
structure MemState where
  startingBalance : Option MemVal
  transactions : Option (List MemTransaction)
  budgets : Option (List MemBudget)
  deriving DecidableEq

/-- The JSON scalar that `JSON.stringify` writes for a scalar in memory: a
finite number as itself, `NaN` and the infinities as `null`. -/
def MemVal.toJson : MemVal → JsVal
  | .null => .null
  | .bool b => .bool b
  | .num (.fin q) => .num q
  | .num (.inf _) => .null
  | .num .nan => .null
  | .str s => .str s

/-- A parsed scalar as a value in memory. -/
def JsVal.toMem : JsVal → MemVal
  | .null => .null
  | .bool b => .bool b
  | .num q => .num (.fin q)
  | .str s => .str s

def MemTransaction.toJson (t : MemTransaction) : Transaction :=
  { id := t.id, type := t.type, amount := t.amount.map MemVal.toJson, date := t.date,
    category := t.category, notes := t.notes }

def Transaction.toMem (t : Transaction) : MemTransaction :=
  { id := t.id, type := t.type, amount := t.amount.map JsVal.toMem, date := t.date,
    category := t.category, notes := t.notes }

def MemBudget.toJson (b : MemBudget) : Budget :=
  { category := b.category, limit := b.limit.map MemVal.toJson }

def Budget.toMem (b : Budget) : MemBudget :=
  { category := b.category, limit := b.limit.map JsVal.toMem }

/-- The document that `JSON.stringify` writes for a state in memory. -/
def MemState.toJson (m : MemState) : AppState :=
  { startingBalance := m.startingBalance.map MemVal.toJson
    transactions := m.transactions.map (List.map MemTransaction.toJson)
    budgets := m.budgets.map (List.map MemBudget.toJson) }

/-- The value that `loadState` returns, as a state in memory. -/
def AppState.toMem (s : AppState) : MemState :=
  { startingBalance := s.startingBalance.map JsVal.toMem
    transactions := s.transactions.map (List.map Transaction.toMem)
    budgets := s.budgets.map (List.map Budget.toMem) }

/-- The function `saveState(s)` on a state in memory: the entry becomes the
text `JSON.stringify(s)`, which is the text of the document `s.toJson`. -/
def saveStateMem (h : Host) (m : MemState) : Storage :=
  saveState h m.toJson

/-- The coercion `Number(v)` of a value in memory. -/
def toNumberMem (h : Host) (v : Option MemVal) : JsNum :=
  match v with
  | some (.num n) => n
  | _ => toNumber h (v.map MemVal.toJson)

/-- The function `saveStartingBalance(v)`: the loaded state with
`startingBalance` set to `Number(v)||0`, which may be an infinity, is saved. -/
def saveStartingBalance (h : Host) (v : Option MemVal) (ls : Storage) : Storage :=
  let s := (loadState h ls).toMem
  saveStateMem h { s with startingBalance := some (.num (toNumberMem h v).orZero) }

/-! ## Derivations -/

/-- The expression `s.startingBalance||0` followed by `Number(..)`. -/
def startOf (h : Host) (s : AppState) : JsNum :=
  match s.startingBalance with
  | none => toNumber h (some (.num 0))
  | some v => if truthy v then toNumber h (some v) else toNumber h (some (.num 0))

/-- The callback of the `reduce` in `calculateTotal`. -/
def totalStep (h : Host) (acc : JsNum) (t : Transaction) : JsNum :=
  acc + (if t.type = some "income" then toNumber h t.amount else -(toNumber h t.amount))

/-- The function `calculateTotal()`. -/
def calculateTotal (h : Host) (ls : Storage) : JsNum :=
  let s := loadState h ls
  let start := startOf h s
  let sum := (s.transactions.getD []).foldl (totalStep h) (.fin 0)
  start + sum

/-- The expression `d.slice(0,7)`. -/
def slice07 (d : String) : String := ⟨d.data.take 7⟩

/-- The result `{ income, expense }` of `monthSummary`. -/
structure Summary where
  income : JsNum
  expense : JsNum
  deriving DecidableEq

/-- The callback of the `forEach` in `monthSummary`, on the pair of
accumulators. -/
def summaryStep (h : Host) (key : String) (acc : Summary) (t : Transaction) : Summary :=
  match t.date with
  | none => acc
  | some d =>
    if d = "" then acc
    else if slice07 d = key then
      if t.type = some "income" then { acc with income := acc.income + (toNumber h t.amount).orZero }
      else { acc with expense := acc.expense + (toNumber h t.amount).orZero }
    else acc

/-- The function `monthSummary()`, with `key` the month key of the current
date. -/
def monthSummary (h : Host) (key : String) (ls : Storage) : Summary :=
  let s := loadState h ls
  (s.transactions.getD []).foldl (summaryStep h key) { income := .fin 0, expense := .fin 0 }

/-- The condition `t.date && t.date.slice(0,7)===key`. -/
def dateInMonth (key : String) (t : Transaction) : Bool :=
  match t.date with
  | none => false
  | some d => decide (d ≠ "") && decide (slice07 d = key)

/-- The callback of the `reduce` in `spentForCategoryThisMonth`. -/
def spentStep (h : Host) (key category : String) (acc : JsNum) (t : Transaction) : JsNum :=
  acc + (if decide (t.category = some category) && decide (t.type = some "expense")
            && dateInMonth key t
         then (toNumber h t.amount).orZero else .fin 0)

/-- The function `spentForCategoryThisMonth(category)`, with `key` the month
key of the current date. -/
def spentForCategoryThisMonth (h : Host) (key category : String) (ls : Storage) : JsNum :=
  let s := loadState h ls
  (s.transactions.getD []).foldl (spentStep h key category) (.fin 0)

/-! ## Transaction mutators -/

/-- The expression `tx.id || ('tx_'+rnd)`, with `rnd` the text
`Math.random().toString(36).slice(2,9)`. -/
def idOrFresh (rnd : String) (tx : Transaction) : String :=
  match tx.id with
  | none => "tx_" ++ rnd
  | some i => if i = "" then "tx_" ++ rnd else i

/-- The function `addTransactionObj(tx)`. -/
def addTransactionObj (h : Host) (rnd : String) (tx : Transaction) (ls : Storage) : Storage :=
  let s := loadState h ls
  let tx1 := { tx with id := some (idOrFresh rnd tx) }
  saveState h { s with transactions := some (s.transactions.getD [] ++ [tx1]) }

/-- The object spread `{...old, ...patch}`: a property of the patch wins, any
other keeps the old value. -/
def mergeTx (old patch : Transaction) : Transaction :=
  { id := patch.id <|> old.id
    type := patch.type <|> old.type
    amount := patch.amount <|> old.amount
    date := patch.date <|> old.date
    category := patch.category <|> old.category
    notes := patch.notes <|> old.notes }

/-- The function `updateTransactionObj(id,patch)`: the entry is written only
when `findIndex` finds a record. -/
def updateTransactionObj (h : Host) (id : String) (patch : Transaction) (ls : Storage) :
    Storage :=
  let s := loadState h ls
  let txs := s.transactions.getD []
  match txs.findIdx? (fun t => decide (t.id = some id)) with
  | some i =>
    match txs[i]? with
    | some old => saveState h { s with transactions := some (txs.set i (mergeTx old patch)) }
    | none => ls
  | none => ls

/-- The function `deleteTransactionObj(id)`. -/
def deleteTransactionObj (h : Host) (id : String) (ls : Storage) : Storage :=
  let s := loadState h ls
  let txs := s.transactions.getD []
  saveState h { s with transactions := some (txs.filter (fun t => decide (t.id ≠ some id))) }

/-! ## Budget mutators -/

/-- The function `saveBudgetObj(b)`. -/
def saveBudgetObj (h : Host) (b : Budget) (ls : Storage) : Storage :=
  let s := loadState h ls
  let bs := s.budgets.getD []
  match bs.findIdx? (fun x => decide (x.category = b.category)) with
  | some i => saveState h { s with budgets := some (bs.set i b) }
  | none => saveState h { s with budgets := some (bs ++ [b]) }

/-- The function `deleteBudget(category)`. -/
def deleteBudget (h : Host) (category : String) (ls : Storage) : Storage :=
  let s := loadState h ls
  let bs := s.budgets.getD []
  saveState h { s with budgets := some (bs.filter (fun b => decide (b.category ≠ some category))) }

/-! ## The quantities the specification speaks of -/

/-- The transactions of a document as a sequence, `s.transactions || []`. -/
def txsOf (s : AppState) : List Transaction := s.transactions.getD []

/-- The budgets of a document as a sequence, `s.budgets || []`. -/
def budgetsOf (s : AppState) : List Budget := s.budgets.getD []

/-- The amount of a record as a number, `Number(t.amount)`. -/
def amountOf (h : Host) (t : Transaction) : JsNum := toNumber h t.amount

/-- The amount of a record with a non-numeric one read as zero,
`Number(t.amount) || 0`. -/
def amountOrZero (h : Host) (t : Transaction) : JsNum := (toNumber h t.amount).orZero

/-- The record is of the income type. -/
def isIncome (t : Transaction) : Bool := decide (t.type = some "income")

/-- The record is of the expense type. -/
def isExpense (t : Transaction) : Bool := decide (t.type = some "expense")

/-- The record is of a type other than income. -/
def isOther (t : Transaction) : Bool := !isIncome t

/-- The sum of `f` over the records taken one by one in document order,
starting from `acc`. -/
def sumInOrder (f : Transaction → JsNum) (acc : JsNum) : List Transaction → JsNum
  | [] => acc
  | t :: ts => sumInOrder f (acc + f t) ts

/-- The stored `startingBalance` read as a number: 0 when the property is
absent, `null`, `false` or the empty string, 1 for `true`, the number itself,
and `Number(s)` for a string. -/
def balanceNumber (h : Host) (s : AppState) : JsNum :=
  match s.startingBalance with
  | none => .fin 0
  | some .null => .fin 0
  | some (.bool b) => if b then .fin 1 else .fin 0
  | some (.num q) => .fin q
  | some (.str t) => if t = "" then .fin 0 else h.stringToNumber t

/-- The amount of a record counted positively for an income record and
negatively for a record of any other type. -/
def signedAmount (h : Host) (t : Transaction) : JsNum :=
  if isIncome t then amountOf h t else -(amountOf h t)

/-- The running total as the specification words it, record by record: the
starting balance plus the sum, in document order, of the signed amounts. -/
def runningTotalInOrder (h : Host) (s : AppState) : JsNum :=
  balanceNumber h s + sumInOrder (signedAmount h) (.fin 0) (txsOf s)

/-- The running total as the claim words it: the starting balance plus the sum
of the income amounts minus the sum of the expense amounts. -/
def runningTotalClaimed (h : Host) (s : AppState) : JsNum :=
  balanceNumber h s + sumInOrder (amountOf h) (.fin 0) ((txsOf s).filter isIncome)
    - sumInOrder (amountOf h) (.fin 0) ((txsOf s).filter isExpense)

/-- The amount of a record when it is a stored number, 0 otherwise. -/
def numValue (t : Transaction) : ℚ :=
  match t.amount with
  | some (.num q) => q
  | _ => 0

/-- The amount of the record is a stored integer. -/
def IntAmount (t : Transaction) : Prop :=
  ∃ n : ℤ, t.amount = some (.num n)

/-- The stored amount counted positively for an income record and negatively
for a record of any other type, as a rational. -/
def signedValue (t : Transaction) : ℚ :=
  if isIncome t then numValue t else -numValue t

/-- The sum of the magnitudes of the stored amounts. -/
def absTotal (txs : List Transaction) : ℚ :=
  (txs.map (fun t => |numValue t|)).sum

/-- The record has a date whose first 7 characters are the month key. -/
def datePrefixIs (key : String) (t : Transaction) : Bool :=
  match t.date with
  | none => false
  | some d => decide (slice07 d = key)

/-- The record counts for category `c` in month `key`, as the specification
words it: type `expense`, category `c`, a date of that month. -/
def countsFor (key c : String) (t : Transaction) : Bool :=
  decide (t.type = some "expense") && decide (t.category = some c) && datePrefixIs key t

/-- The month summary, record by record: `income` sums the amounts of the
income records of the month, `expense` those of the records of the month of
any other type, each in document order. -/
def monthSummarySpec (h : Host) (key : String) (s : AppState) : Summary :=
  { income :=
      sumInOrder (amountOrZero h) (.fin 0)
        ((txsOf s).filter (fun t => isIncome t && datePrefixIs key t))
    expense :=
      sumInOrder (amountOrZero h) (.fin 0)
        ((txsOf s).filter (fun t => isOther t && datePrefixIs key t)) }

/-- The month summary as the claim words it: `expense` sums the amounts of the
expense-type records of the month only. -/
def monthSummaryClaimed (h : Host) (key : String) (s : AppState) : Summary :=
  { income :=
      sumInOrder (amountOrZero h) (.fin 0)
        ((txsOf s).filter (fun t => isIncome t && datePrefixIs key t))
    expense :=
      sumInOrder (amountOrZero h) (.fin 0)
        ((txsOf s).filter (fun t => isExpense t && datePrefixIs key t)) }

/-- One property of a shallow merge, as the specification words it: a property
of the patch takes the value of the patch, any other keeps its old value. -/
def FieldMerged {α : Type} (old patch merged : Option α) : Prop :=
  (patch = none → merged = old) ∧ (∀ v, patch = some v → merged = some v)

/-- The record `merged` is the shallow merge of `old` with `patch`. -/
def ShallowMerge (old patch merged : Transaction) : Prop :=
  FieldMerged old.id patch.id merged.id
    ∧ FieldMerged old.type patch.type merged.type
    ∧ FieldMerged old.amount patch.amount merged.amount
    ∧ FieldMerged old.date patch.date merged.date
    ∧ FieldMerged old.category patch.category merged.category
    ∧ FieldMerged old.notes patch.notes merged.notes

/-- A patch that carries the one property `id`. -/
def idPatch (i : String) : Transaction :=
  { id := some i, type := none, amount := none, date := none, category := none,
    notes := none }

/-- A patch that carries the one property `amount`. -/
def amountPatch (q : ℚ) : Transaction :=
  { id := none, type := none, amount := some (.num q), date := none, category := none,
    notes := none }

/-- The record with its amount replaced by the number 0. -/
def withZeroAmount (t : Transaction) : Transaction :=
  { t with amount := some (.num 0) }

/-- The amount of the record is missing or not numeric: `Number(t.amount)` is
`NaN`. -/
def NonNumeric (h : Host) (t : Transaction) : Prop :=
  toNumber h t.amount = JsNum.nan

/-- The three top-level properties of the document are present. -/
def FieldsPresent (s : AppState) : Prop :=
  s.startingBalance.isSome = true ∧ s.transactions.isSome = true ∧ s.budgets.isSome = true

/-- The ids of the records of a document, in order. -/
def idsOf (s : AppState) : List (Option String) := (txsOf s).map Transaction.id

/-- One call of a transaction mutator. -/
inductive Op where
  | add (rnd : String) (tx : Transaction)
  | update (id : String) (patch : Transaction)
  | delete (id : String)

/-- The storage after one call. -/
def applyOp (h : Host) (ls : Storage) : Op → Storage
  | .add rnd tx => addTransactionObj h rnd tx ls
  | .update id patch => updateTransactionObj h id patch ls
  | .delete id => deleteTransactionObj h id ls

/-- The storage after a sequence of calls, the first of the list first. -/
def runOps (h : Host) (ops : List Op) (ls : Storage) : Storage :=
  ops.foldl (applyOp h) ls

/-- The number of `addTransactionObj` calls of a sequence. -/
def countAdds : List Op → ℕ
  | [] => 0
  | .add _ _ :: ops => countAdds ops + 1
  | _ :: ops => countAdds ops

/-- The number of `deleteTransactionObj` calls of a sequence. -/
def countDeletes : List Op → ℕ
  | [] => 0
  | .delete _ :: ops => countDeletes ops + 1
  | _ :: ops => countDeletes ops

/-- The call respects the ids of the stored document: an add stores an id no
record carries, an update patch that carries an id carries the id the call
names or one no record carries, a delete names an id that a record carries. -/
def OpAllowed (h : Host) (ls : Storage) : Op → Prop
  | .add rnd tx => some (idOrFresh rnd tx) ∉ idsOf (loadState h ls)
  | .update id patch => ∀ v, patch.id = some v → v = id ∨ some v ∉ idsOf (loadState h ls)
  | .delete id => some id ∈ idsOf (loadState h ls)

/-- Every call of the sequence respects the ids of the document it meets. -/
def Disciplined (h : Host) : Storage → List Op → Prop
  | _, [] => True
  | ls, op :: ops => OpAllowed h ls op ∧ Disciplined h (applyOp h ls op) ops

/-! ## The laws of the host and a host that has them -/

/-- No number of the scalar is `NaN` or an infinity. -/
def MemVal.isFinite : MemVal → Bool
  | .num (.fin _) => true
  | .num _ => false
  | _ => true

/-- No number anywhere in the state is `NaN` or an infinity. -/
def MemState.allFinite (m : MemState) : Bool :=
  m.startingBalance.all MemVal.isFinite
    && m.transactions.all (List.all · (fun t => t.amount.all MemVal.isFinite))
    && m.budgets.all (List.all · (fun b => b.limit.all MemVal.isFinite))

/-- The document `s` survives the codec: `JSON.stringify(s)` is not the empty
text and `JSON.parse` gives `s` back. -/
def Host.RoundTripsAt (h : Host) (s : AppState) : Prop :=
  h.stringify s ≠ "" ∧ h.parse (h.stringify s) = some s

/-- The codec law of the host: every document survives
`JSON.parse(JSON.stringify(s))`. -/
def Host.Faithful (h : Host) : Prop :=
  ∀ s : AppState, h.RoundTripsAt s

instance : Encodable String :=
  Encodable.ofLeftInjection (fun s : String => s.data.map Char.toNat)
    (fun l => some ⟨l.map Char.ofNat⟩)
    (fun s => by
      have hid : (Char.ofNat ∘ Char.toNat) = id := by
        funext c
        simp [Char.ofNat_toNat]
      simp [List.map_map, hid])

instance : Encodable JsVal :=
  Encodable.ofLeftInjection
    (fun v : JsVal =>
      match v with
      | .null => (Sum.inl () : Unit ⊕ Bool ⊕ ℚ ⊕ String)
      | .bool b => Sum.inr (Sum.inl b)
      | .num q => Sum.inr (Sum.inr (Sum.inl q))
      | .str s => Sum.inr (Sum.inr (Sum.inr s)))
    (fun x =>
      match x with
      | Sum.inl _ => some JsVal.null
      | Sum.inr (Sum.inl b) => some (JsVal.bool b)
      | Sum.inr (Sum.inr (Sum.inl q)) => some (JsVal.num q)
      | Sum.inr (Sum.inr (Sum.inr s)) => some (JsVal.str s))
    (fun v => by cases v <;> rfl)

instance : Encodable Transaction :=
  Encodable.ofLeftInjection
    (fun t : Transaction => (t.id, t.type, t.amount, t.date, t.category, t.notes))
    (fun p => some ⟨p.1, p.2.1, p.2.2.1, p.2.2.2.1, p.2.2.2.2.1, p.2.2.2.2.2⟩)
    (fun _ => rfl)

instance : Encodable Budget :=
  Encodable.ofLeftInjection (fun b : Budget => (b.category, b.limit))
    (fun p => some ⟨p.1, p.2⟩) (fun _ => rfl)

instance : Encodable AppState :=
  Encodable.ofLeftInjection
    (fun s : AppState => (s.startingBalance, s.transactions, s.budgets))
    (fun p => some ⟨p.1, p.2.1, p.2.2⟩) (fun _ => rfl)

/-- The value of a decimal digit character. -/
def digitOfChar (c : Char) : ℕ := c.toNat - 48

/-- The decimal numeral of `n`. -/
def writeNat (n : ℕ) : String := ⟨((Nat.digits 10 n).map Nat.digitChar).reverse⟩

/-- The number a decimal numeral stands for. -/
def readNat (raw : String) : ℕ := Nat.ofDigits 10 (raw.data.reverse.map digitOfChar)

/-- The text `Number(s)` reads: the empty string is `0`, a string of decimal
digits its value, and any other string of this fragment `NaN`. -/
def digitsToNumber (s : String) : JsNum :=
  if s.data.all Char.isDigit then roundD (readNat s) else .nan

/-- A host that has the codec law: a document is written as the decimal numeral
of its code (its code plus one, so the text is never empty) and read back from
it.  It stands in for `JSON` wherever only the law matters. -/
def numeralHost : Host where
  stringToNumber := digitsToNumber
  stringify := fun s => writeNat (Encodable.encode s + 1)
  parse := fun raw => Encodable.decode (readNat raw - 1)

/-- The state `{startingBalance: Infinity, transactions: [], budgets: []}`,
which `saveStartingBalance(Infinity)` hands to `saveState` on an empty store. -/
def infinityState : MemState :=
  { startingBalance := some (.num (.inf false)), transactions := some [], budgets := some [] }

/-- The empty object `{}`: a document with none of the three properties. -/
def emptyDoc : AppState :=
  { startingBalance := none, transactions := none, budgets := none }

/-- The record of the scenario of the specification: income 1000, Salary, on
2024-01-05. -/
def salaryTx : Transaction :=
  { id := none, type := some "income", amount := some (.num 1000),
    date := some "2024-01-05", category := some "Salary", notes := none }

/-- The record of the scenario of the specification: expense 200, Food, on
2024-01-10. -/
def foodTx : Transaction :=
  { id := none, type := some "expense", amount := some (.num 200),
    date := some "2024-01-10", category := some "Food", notes := none }

/-- The salary record of the scenario stored without an `amount` property. -/
def salaryNoAmount : Transaction :=
  { salaryTx with amount := none }

/-- A record whose type is neither `income` nor `expense`. -/
def transferTx : Transaction :=
  { id := some "tx_t1", type := some "transfer", amount := some (.num 50),
    date := some "2024-01-15", category := some "Savings", notes := none }

/-- A document with starting balance 10 and the one record `transferTx`. -/
def transferDoc : AppState :=
  { startingBalance := some (.num 10), transactions := some [transferTx], budgets := some [] }

/-- An income record of amount 1. -/
def incomeOne : Transaction :=
  { id := none, type := some "income", amount := some (.num 1),
    date := some "2024-01-20", category := some "Interest", notes := none }

/-- A document whose starting balance is `2 ^ 53` and which holds one income
record of amount 1. -/
def bigDoc : AppState :=
  { startingBalance := some (.num 9007199254740992),
    transactions := some [{ incomeOne with id := some "tx_a1" }], budgets := some [] }

/-- The budget of the scenario of the specification: Food, limit 500. -/
def food500 : Budget := { category := some "Food", limit := some (.num 500) }

/-- The budget of the scenario of the specification: Food, limit 300. -/
def food300 : Budget := { category := some "Food", limit := some (.num 300) }

/-- The storage after the first step of the scenario, from an absent entry. -/
def salaryStorage : Storage :=
  addTransactionObj numeralHost "k3v9q1z" salaryTx none

/-- The storage after the two steps of the scenario. -/
def scenarioStorage : Storage :=
  addTransactionObj numeralHost "p7m2x4c" foodTx salaryStorage

/-- The host `numeralHost` made to write and read the empty object as the
JSON text `{}`, as ECMAScript does. -/
def emptyObjectHost : Host where
  stringToNumber := digitsToNumber
  stringify := fun s => if s = emptyDoc then "\x7b\x7d" else numeralHost.stringify s
  parse := fun raw => if raw = "\x7b\x7d" then some emptyDoc else numeralHost.parse raw

/-! ## Rounding to a double -/

theorem roundHalfEven_intCast (j : ℤ) : roundHalfEven (j : ℚ) = j := by
  simp [roundHalfEven]

theorem ulpExp_ge (q : ℚ) : -1074 ≤ ulpExp q := le_max_right _ _

theorem ulpExp_le_of_lt (r : ℚ) (hr : r ≠ 0) (t : ℤ) (ht : -1074 ≤ t)
    (hlt : |r| < 2 ^ (53 + t)) : ulpExp r ≤ t := by
  have hpos : 0 < |r| := abs_pos.mpr hr
  have hlog : Int.log 2 |r| < 53 + t := by
    have := (Int.lt_zpow_iff_log_lt (R := ℚ) (b := 2) (by norm_num) hpos (x := 53 + t)).mp
      (by exact_mod_cast hlt)
    exact this
  unfold ulpExp
  exact max_le (by omega) ht

/-- A value that is an integer multiple of `2 ^ ulpExp` is its own rounding. -/
theorem roundD_of_aligned (r : ℚ) (j : ℤ) (hj : r / 2 ^ ulpExp r = j)
    (hlt : |r| < 2 ^ 1024) : roundD r = JsNum.fin r := by
  have hpow : (2 : ℚ) ^ ulpExp r ≠ 0 := zpow_ne_zero _ (by norm_num)
  have hval : (roundHalfEven (r / 2 ^ ulpExp r) : ℚ) * 2 ^ ulpExp r = r := by
    rw [hj, roundHalfEven_intCast, ← hj, div_mul_cancel₀ _ hpow]
  unfold roundD
  rw [hval, if_neg (not_le.mpr hlt)]

theorem roundD_of_scaled (r : ℚ) (k t : ℤ) (hr : r = k * 2 ^ t) (hk : |k| < 2 ^ 53)
    (ht : -1074 ≤ t) (hlt : |r| < 2 ^ 1024) : roundD r = JsNum.fin r := by
  by_cases h0 : r = 0
  · apply roundD_of_aligned r 0 _ hlt
    rw [h0]
    simp
  · have hbound : |r| < 2 ^ (53 + t) := by
      rw [hr, abs_mul, abs_of_pos (zpow_pos (by norm_num : (0:ℚ) < 2) t), zpow_add₀ (by norm_num)]
      apply mul_lt_mul_of_pos_right _ (zpow_pos (by norm_num) t)
      have h1 : ((|k| : ℤ) : ℚ) < ((2 ^ 53 : ℤ) : ℚ) := by exact_mod_cast hk
      rw [Int.cast_abs] at h1
      push_cast at h1
      norm_num at h1 ⊢
      exact h1
    have hs : ulpExp r ≤ t := ulpExp_le_of_lt r h0 t ht hbound
    obtain ⟨d, hd⟩ := Int.le.dest hs
    apply roundD_of_aligned r (k * 2 ^ d) _ hlt
    have hpow : (2 : ℚ) ^ ulpExp r ≠ 0 := zpow_ne_zero _ (by norm_num)
    rw [div_eq_iff hpow]
    nth_rewrite 1 [hr]
    rw [← hd, zpow_add₀ (by norm_num : (2:ℚ) ≠ 0)]
    push_cast
    rw [zpow_natCast]
    ring

theorem roundD_intCast (n : ℤ) (hn : |n| ≤ 2 ^ 53) : roundD (n : ℚ) = JsNum.fin n := by
  have hlt : |(n : ℚ)| < 2 ^ 1024 := by
    have h1 : ((|n| : ℤ) : ℚ) ≤ ((2 ^ 53 : ℤ) : ℚ) := by exact_mod_cast hn
    have h2 : |(n : ℚ)| ≤ 2 ^ 53 := by
      rw [Int.cast_abs] at h1
      push_cast at h1
      norm_num at h1 ⊢
      exact h1
    exact lt_of_le_of_lt h2 (by norm_num)
  rcases lt_or_eq_of_le hn with hk | hk
  · exact roundD_of_scaled n n 0 (by simp) hk (by norm_num) hlt
  · -- |n| = 2^53 : n = (n / 2) * 2 ^ 1
    have hn2 : n = n / 2 * 2 := by
      rcases abs_eq (by norm_num : (0:ℤ) ≤ 2 ^ 53) |>.mp hk with h | h <;> rw [h] <;> norm_num
    have hk2 : |n / 2| < 2 ^ 53 := by
      rcases abs_eq (by norm_num : (0:ℤ) ≤ 2 ^ 53) |>.mp hk with h | h <;> rw [h] <;> norm_num
    apply roundD_of_scaled n (n / 2) 1 _ hk2 (by norm_num) hlt
    have : ((n : ℤ) : ℚ) = ((n / 2 * 2 : ℤ) : ℚ) := by rw [← hn2]
    rw [this]
    push_cast
    norm_num

theorem roundD_of_scaled_le (r : ℚ) (k t : ℤ) (hr : r = k * 2 ^ t) (hk : |k| ≤ 2 ^ 53)
    (ht : -1074 ≤ t) (hlt : |r| < 2 ^ 1024) : roundD r = JsNum.fin r := by
  rcases lt_or_eq_of_le hk with hk1 | hk1
  · exact roundD_of_scaled r k t hr hk1 ht hlt
  · have hk2 : |k / 2| < 2 ^ 53 := by
      rcases abs_eq (by norm_num : (0:ℤ) ≤ 2 ^ 53) |>.mp hk1 with h | h <;> rw [h] <;> norm_num
    have hkk : k = k / 2 * 2 := by
      rcases abs_eq (by norm_num : (0:ℤ) ≤ 2 ^ 53) |>.mp hk1 with h | h <;> rw [h] <;> norm_num
    apply roundD_of_scaled r (k / 2) (t + 1) _ hk2 (by omega) hlt
    have hc : ((k : ℤ) : ℚ) = ((k / 2 * 2 : ℤ) : ℚ) := by rw [← hkk]
    rw [hr, hc, zpow_add₀ (by norm_num : (2:ℚ) ≠ 0)]
    push_cast
    ring

theorem roundHalfEven_mem (x : ℚ) : roundHalfEven x = ⌊x⌋ ∨ roundHalfEven x = ⌊x⌋ + 1 := by
  unfold roundHalfEven
  split_ifs <;> simp

theorem abs_roundHalfEven_le (x : ℚ) (hx : |x| < 2 ^ 53) : |roundHalfEven x| ≤ 2 ^ 53 := by
  obtain ⟨h1, h2⟩ := abs_lt.mp hx
  have hlo : (-(2 ^ 53) : ℤ) ≤ ⌊x⌋ := by
    rw [Int.le_floor]
    push_cast
    exact le_of_lt h1
  have hhi : ⌊x⌋ < 2 ^ 53 := by
    rw [Int.floor_lt]
    push_cast
    exact h2
  rw [abs_le]
  rcases roundHalfEven_mem x with h | h <;> rw [h] <;> constructor <;> omega

theorem abs_div_ulp_lt (q : ℚ) : |q / 2 ^ ulpExp q| < 2 ^ 53 := by
  have hpow : (0 : ℚ) < 2 ^ ulpExp q := zpow_pos (by norm_num) _
  rw [abs_div, abs_of_pos hpow, div_lt_iff₀ hpow]
  have h1 : |q| < (2 : ℚ) ^ (Int.log 2 |q| + 1) := by
    have := Int.lt_zpow_succ_log_self (R := ℚ) (b := 2) (by norm_num) |q|
    exact_mod_cast this
  have h2 : Int.log 2 |q| + 1 ≤ 53 + ulpExp q := by
    have : Int.log 2 |q| - 52 ≤ ulpExp q := le_max_left _ _
    omega
  calc |q| < (2 : ℚ) ^ (Int.log 2 |q| + 1) := h1
    _ ≤ 2 ^ (53 + ulpExp q) := zpow_le_zpow_right₀ (by norm_num) h2
    _ = 2 ^ 53 * 2 ^ ulpExp q := by
        rw [zpow_add₀ (by norm_num : (2:ℚ) ≠ 0)]
        norm_num

/-- Rounding is idempotent: a double is its own rounding. -/
theorem roundD_idem (q r : ℚ) (h : roundD q = JsNum.fin r) : roundD r = JsNum.fin r := by
  unfold roundD at h
  split_ifs at h with hov
  have hr : (roundHalfEven (q / 2 ^ ulpExp q) : ℚ) * 2 ^ ulpExp q = r := by
    injection h
  exact roundD_of_scaled_le r _ (ulpExp q) hr.symm
    (abs_roundHalfEven_le _ (abs_div_ulp_lt q)) (ulpExp_ge q) (by rw [← hr]; exact not_le.mp hov)

theorem roundD_zero : roundD 0 = JsNum.fin 0 := by
  have := roundD_intCast 0 (by norm_num)
  simpa using this

/-- Evaluation of the rounding from the binary exponent and the floor. -/
theorem roundD_eval (q : ℚ) (E f : ℤ) (hq : q ≠ 0) (h1 : (2 : ℚ) ^ E ≤ |q|)
    (h2 : |q| < (2 : ℚ) ^ (E + 1)) (hE : -1074 ≤ E - 52)
    (hf1 : (f : ℚ) ≤ q / 2 ^ (E - 52)) (hf2 : q / 2 ^ (E - 52) < f + 1) :
    ulpExp q = E - 52 ∧ ⌊q / 2 ^ ulpExp q⌋ = f := by
  have hpos : 0 < |q| := abs_pos.mpr hq
  have hlog : Int.log 2 |q| = E := by
    apply le_antisymm
    · have := (Int.lt_zpow_iff_log_lt (R := ℚ) (b := 2) (by norm_num) hpos (x := E + 1)).mp
        (by exact_mod_cast h2)
      omega
    · exact (Int.zpow_le_iff_le_log (R := ℚ) (b := 2) (by norm_num) hpos (x := E)).mp
        (by exact_mod_cast h1)
  have hu : ulpExp q = E - 52 := by
    unfold ulpExp
    rw [hlog]
    exact max_eq_left hE
  refine ⟨hu, ?_⟩
  rw [hu, Int.floor_eq_iff]
  exact ⟨hf1, hf2⟩

/-! ## Arithmetic of `JsNum` -/

theorem JsNum.zero_def : (0 : JsNum) = JsNum.fin 0 := rfl

theorem JsNum.fin_add_fin (a b : ℚ) : JsNum.fin a + JsNum.fin b = roundD (a + b) := rfl

theorem JsNum.sub_def (a b : JsNum) : a - b = a + -b := rfl

theorem JsNum.neg_fin (a : ℚ) : -(JsNum.fin a) = JsNum.fin (-a) := rfl

theorem JsNum.add_nan (a : JsNum) : a + JsNum.nan = JsNum.nan := by
  cases a <;> rfl

theorem JsNum.nan_add (a : JsNum) : JsNum.nan + a = JsNum.nan := by
  cases a <;> rfl

/-- The sum of two finite values whose exact sum is an integer of magnitude at
most `2 ^ 53` is exact. -/
theorem JsNum.fin_add_fin_of_int (a b : ℚ) (n : ℤ) (hn : a + b = n) (hb : |n| ≤ 2 ^ 53) :
    JsNum.fin a + JsNum.fin b = JsNum.fin (a + b) := by
  rw [JsNum.fin_add_fin, hn]
  exact roundD_intCast n hb

theorem JsNum.orZero_fin (q : ℚ) : (JsNum.fin q).orZero = JsNum.fin q := by
  by_cases hq : q = 0
  · simp [JsNum.orZero, hq]
  · simp [JsNum.orZero, hq]

theorem JsNum.rep_add (a b : JsNum) :
    ∀ r : ℚ, a + b = JsNum.fin r → roundD r = JsNum.fin r := by
  intro r hr
  cases a with
  | nan => rw [JsNum.nan_add] at hr; cases hr
  | inf s =>
    cases b with
    | nan => cases hr
    | inf t =>
      change (if s = t then JsNum.inf s else JsNum.nan) = JsNum.fin r at hr
      split_ifs at hr
    | fin y => cases hr
  | fin x =>
    cases b with
    | nan => cases hr
    | inf t => cases hr
    | fin y => exact roundD_idem (x + y) r hr

/-- Adding zero to a double, an infinity or `NaN` changes nothing. -/
theorem JsNum.add_zero_of_rep (a : JsNum) (ha : ∀ r : ℚ, a = JsNum.fin r → roundD r = JsNum.fin r) :
    a + JsNum.fin 0 = a := by
  cases a with
  | nan => rfl
  | inf s => rfl
  | fin x =>
    rw [JsNum.fin_add_fin, add_zero]
    exact ha x rfl

theorem JsNum.zero_add_zero : JsNum.fin 0 + JsNum.fin 0 = JsNum.fin 0 := by
  rw [JsNum.fin_add_fin, add_zero, roundD_zero]

/-! ## The codec of `numeralHost` -/

theorem digitOfChar_digitChar (d : ℕ) (hd : d < 10) : digitOfChar (Nat.digitChar d) = d := by
  interval_cases d <;> rfl

theorem readNat_writeNat (n : ℕ) : readNat (writeNat n) = n := by
  unfold readNat writeNat
  simp only [List.reverse_reverse, List.map_map]
  have hmap : (Nat.digits 10 n).map (digitOfChar ∘ Nat.digitChar) = Nat.digits 10 n := by
    conv_rhs => rw [← List.map_id (Nat.digits 10 n)]
    apply List.map_congr_left
    intro d hd
    exact digitOfChar_digitChar d (Nat.digits_lt_base (by norm_num) hd)
  rw [hmap, Nat.ofDigits_digits]

theorem writeNat_ne_empty (n : ℕ) (hn : n ≠ 0) : writeNat n ≠ "" := by
  unfold writeNat
  intro hc
  have h2 : ((Nat.digits 10 n).map Nat.digitChar).reverse = [] := by
    simpa using congrArg String.data hc
  simp only [List.reverse_eq_nil_iff, List.map_eq_nil_iff] at h2
  exact hn (Nat.digits_eq_nil_iff_eq_zero.mp h2)

theorem numeralHost_faithful : numeralHost.Faithful := by
  intro s
  refine ⟨writeNat_ne_empty _ (Nat.succ_ne_zero _), ?_⟩
  show Encodable.decode (readNat (writeNat (Encodable.encode s + 1)) - 1) = some s
  rw [readNat_writeNat, Nat.add_sub_cancel, Encodable.encodek]

/-! ## Reading back what a mutator wrote -/

theorem loadState_saveState (h : Host) (s : AppState) (hs : h.RoundTripsAt s) :
    loadState h (saveState h s) = s := by
  obtain ⟨hne, hp⟩ := hs
  simp [loadState, saveState, hne, hp]

theorem loadState_addTransactionObj (h : Host) (hf : h.Faithful) (rnd : String)
    (tx : Transaction) (ls : Storage) :
    loadState h (addTransactionObj h rnd tx ls)
      = { loadState h ls with
          transactions :=
            some (txsOf (loadState h ls) ++ [{ tx with id := some (idOrFresh rnd tx) }]) } :=
  loadState_saveState h _ (hf _)

theorem loadState_none (h : Host) : loadState h none = defaultState := rfl

theorem loadState_salaryStorage :
    loadState numeralHost salaryStorage
      = { defaultState with
          transactions := some [{ salaryTx with id := some "tx_k3v9q1z" }] } := by
  rw [salaryStorage, loadState_addTransactionObj numeralHost numeralHost_faithful]
  rfl

theorem loadState_scenarioStorage :
    loadState numeralHost scenarioStorage
      = { defaultState with
          transactions := some [{ salaryTx with id := some "tx_k3v9q1z" },
            { foodTx with id := some "tx_p7m2x4c" }] } := by
  rw [scenarioStorage, loadState_addTransactionObj numeralHost numeralHost_faithful,
    loadState_salaryStorage]
  rfl

theorem loadState_deleteTransactionObj (h : Host) (hf : h.Faithful) (id : String)
    (ls : Storage) :
    loadState h (deleteTransactionObj h id ls)
      = { loadState h ls with
          transactions :=
            some ((txsOf (loadState h ls)).filter (fun t => decide (t.id ≠ some id))) } :=
  loadState_saveState h _ (hf _)

theorem updateTransactionObj_of_absent (h : Host) (id : String) (patch : Transaction)
    (ls : Storage) (hno : ∀ t ∈ txsOf (loadState h ls), t.id ≠ some id) :
    updateTransactionObj h id patch ls = ls := by
  have hnone : (txsOf (loadState h ls)).findIdx? (fun t => decide (t.id = some id)) = none := by
    rw [List.findIdx?_eq_none_iff]
    intro t ht
    simpa using hno t ht
  unfold updateTransactionObj
  simp only [txsOf] at hnone
  simp only [hnone]

theorem updateTransactionObj_of_first (h : Host) (id : String) (patch : Transaction)
    (ls : Storage) (i : ℕ) (old : Transaction)
    (hold : (txsOf (loadState h ls))[i]? = some old) (hid : old.id = some id)
    (hfirst : ∀ j t, j < i → (txsOf (loadState h ls))[j]? = some t → t.id ≠ some id) :
    updateTransactionObj h id patch ls
      = saveState h { loadState h ls with
          transactions := some ((txsOf (loadState h ls)).set i (mergeTx old patch)) } := by
  have hlt : i < (txsOf (loadState h ls)).length := by
    rcases Nat.lt_or_ge i (txsOf (loadState h ls)).length with hlt | hge
    · exact hlt
    · rw [List.getElem?_eq_none hge] at hold
      cases hold
  have hget : (txsOf (loadState h ls))[i] = old := by
    rw [List.getElem?_eq_getElem hlt] at hold
    exact Option.some.inj hold
  have hsome : (txsOf (loadState h ls)).findIdx? (fun t => decide (t.id = some id)) = some i := by
    rw [List.findIdx?_eq_some_iff_getElem]
    refine ⟨hlt, ?_, ?_⟩
    · rw [hget]
      simpa using hid
    · intro j hji
      have hj : j < (txsOf (loadState h ls)).length := Nat.lt_trans hji hlt
      have := hfirst j _ hji (List.getElem?_eq_getElem hj)
      simpa using this
  unfold updateTransactionObj
  simp only [txsOf] at hsome hold
  simp only [hsome, hold]
  rfl

theorem updateTransactionObj_cases (h : Host) (id : String) (patch : Transaction)
    (ls : Storage) :
    ((∀ t ∈ txsOf (loadState h ls), t.id ≠ some id) ∧ updateTransactionObj h id patch ls = ls)
      ∨ ∃ i old, (txsOf (loadState h ls))[i]? = some old ∧ old.id = some id
          ∧ (∀ j t, j < i → (txsOf (loadState h ls))[j]? = some t → t.id ≠ some id)
          ∧ updateTransactionObj h id patch ls
              = saveState h { loadState h ls with
                  transactions :=
                    some ((txsOf (loadState h ls)).set i (mergeTx old patch)) } := by
  cases hfi : (txsOf (loadState h ls)).findIdx? (fun t => decide (t.id = some id)) with
  | none =>
    left
    rw [List.findIdx?_eq_none_iff] at hfi
    have hno : ∀ t ∈ txsOf (loadState h ls), t.id ≠ some id := by
      intro t ht
      simpa using hfi t ht
    exact ⟨hno, updateTransactionObj_of_absent h id patch ls hno⟩
  | some i =>
    right
    rw [List.findIdx?_eq_some_iff_getElem] at hfi
    obtain ⟨hlt, hp, hbefore⟩ := hfi
    have hid : ((txsOf (loadState h ls))[i]).id = some id := by simpa using hp
    have hfirst : ∀ j t, j < i → (txsOf (loadState h ls))[j]? = some t → t.id ≠ some id := by
      intro j t hji hjt
      have hj : j < (txsOf (loadState h ls)).length := Nat.lt_trans hji hlt
      rw [List.getElem?_eq_getElem hj] at hjt
      have := hbefore j hji
      rw [← Option.some.inj hjt]
      simpa using this
    exact ⟨i, _, List.getElem?_eq_getElem hlt, hid, hfirst,
      updateTransactionObj_of_first h id patch ls i _ (List.getElem?_eq_getElem hlt) hid hfirst⟩

theorem calculateTotal_eq_foldl (h : Host) (ls : Storage) :
    calculateTotal h ls
      = startOf h (loadState h ls)
        + (txsOf (loadState h ls)).foldl (totalStep h) (JsNum.fin 0) := rfl

theorem startOf_eq_balanceNumber (h : Host) (s : AppState) :
    startOf h s = balanceNumber h s := by
  unfold startOf balanceNumber
  cases hs : s.startingBalance with
  | none => rfl
  | some v =>
    cases v with
    | null => rfl
    | bool b => cases b <;> rfl
    | num q =>
      by_cases hq : q = 0
      · simp [truthy, toNumber, hq]
      · simp [truthy, toNumber, hq]
    | str t =>
      by_cases ht : t = ""
      · simp [truthy, toNumber, ht]
      · simp [truthy, toNumber, ht]

theorem totalStep_eq (h : Host) (a : JsNum) (t : Transaction) :
    totalStep h a t = a + signedAmount h t := by
  unfold totalStep signedAmount isIncome amountOf
  by_cases ht : t.type = some "income"
  · simp [ht]
  · simp [ht]

theorem foldl_totalStep (h : Host) (txs : List Transaction) (a : JsNum) :
    txs.foldl (totalStep h) a = sumInOrder (signedAmount h) a txs := by
  induction txs generalizing a with
  | nil => rfl
  | cons t ts ih =>
    rw [List.foldl_cons, ih, totalStep_eq]
    rfl

theorem calculateTotal_eq (h : Host) (ls : Storage) :
    calculateTotal h ls = runningTotalInOrder h (loadState h ls) := by
  rw [calculateTotal_eq_foldl, foldl_totalStep, startOf_eq_balanceNumber]
  rfl

/-! ## C1: the running total -/

theorem absTotal_nonneg (txs : List Transaction) : 0 ≤ absTotal txs := by
  unfold absTotal
  apply List.sum_nonneg
  intro x hx
  obtain ⟨t, _, rfl⟩ := List.mem_map.mp hx
  exact abs_nonneg _

theorem absTotal_cons (t : Transaction) (ts : List Transaction) :
    absTotal (t :: ts) = |numValue t| + absTotal ts := by
  simp [absTotal]

theorem abs_signedValue (t : Transaction) : |signedValue t| = |numValue t| := by
  unfold signedValue
  split_ifs
  · rfl
  · exact abs_neg _

theorem abs_sum_signedValue_le (txs : List Transaction) :
    |(txs.map signedValue).sum| ≤ absTotal txs := by
  induction txs with
  | nil => simp [absTotal]
  | cons t ts ih =>
    rw [List.map_cons, List.sum_cons, absTotal_cons]
    calc |signedValue t + (ts.map signedValue).sum|
        ≤ |signedValue t| + |(ts.map signedValue).sum| := abs_add _ _
      _ ≤ |numValue t| + absTotal ts := by
          rw [abs_signedValue]
          exact add_le_add_left ih _

theorem sum_signedValue_int (txs : List Transaction) (hall : ∀ t ∈ txs, IntAmount t) :
    ∃ m : ℤ, (txs.map signedValue).sum = m := by
  induction txs with
  | nil => exact ⟨0, by simp⟩
  | cons t ts ih =>
    obtain ⟨m, hm⟩ := ih (fun u hu => hall u (List.mem_cons_of_mem t hu))
    obtain ⟨n, hn⟩ := hall t (List.mem_cons_self t ts)
    have hv : numValue t = n := by
      unfold numValue
      rw [hn]
    rw [List.map_cons, List.sum_cons, hm]
    unfold signedValue
    rw [hv]
    split_ifs
    · exact ⟨n + m, by push_cast; ring⟩
    · exact ⟨-n + m, by push_cast; ring⟩

theorem sum_signedValue_regroup (txs : List Transaction) :
    (txs.map signedValue).sum
      = ((txs.filter isIncome).map numValue).sum - ((txs.filter isOther).map numValue).sum := by
  induction txs with
  | nil => simp
  | cons t ts ih =>
    by_cases hi : isIncome t = true
    · have ho : isOther t = false := by simp [isOther, hi]
      simp only [List.map_cons, List.sum_cons, List.filter_cons, hi, ho, if_true, ih,
        signedValue, Bool.false_eq_true, if_false]
      ring
    · have hi2 : isIncome t = false := by simpa using hi
      have ho : isOther t = true := by simp [isOther, hi2]
      simp only [List.map_cons, List.sum_cons, List.filter_cons, hi2, ho, if_true, ih,
        signedValue, Bool.false_eq_true, if_false]
      ring

theorem signedAmount_of_int (h : Host) (t : Transaction) (n : ℤ)
    (hn : t.amount = some (.num n)) : signedAmount h t = JsNum.fin (signedValue t) := by
  unfold signedAmount signedValue amountOf numValue
  rw [hn]
  split_ifs <;> rfl

/-- While the values are integers whose magnitudes add up to at most `2 ^ 53`
no addition rounds: the sum in document order is the exact sum. -/
theorem sumInOrder_signed_exact (h : Host) (txs : List Transaction) :
    ∀ (q : ℚ) (k : ℤ), q = k → (∀ t ∈ txs, IntAmount t) → |q| + absTotal txs ≤ 2 ^ 53 →
      sumInOrder (signedAmount h) (JsNum.fin q) txs
        = JsNum.fin (q + (txs.map signedValue).sum) := by
  induction txs with
  | nil =>
    intro q k _ _ _
    simp [sumInOrder]
  | cons t ts ih =>
    intro q k hq hall hb
    obtain ⟨n, hn⟩ := hall t (List.mem_cons_self t ts)
    obtain ⟨j, hj⟩ : ∃ j : ℤ, signedValue t = j := by
      have := sum_signedValue_int [t] (fun u hu => by
        rw [List.mem_singleton] at hu
        rw [hu]
        exact ⟨n, hn⟩)
      simpa using this
    rw [absTotal_cons] at hb
    have hrest := absTotal_nonneg ts
    have hstep : |q + signedValue t| ≤ |q| + |numValue t| := by
      calc |q + signedValue t| ≤ |q| + |signedValue t| := abs_add _ _
        _ = |q| + |numValue t| := by rw [abs_signedValue]
    have hsum : q + signedValue t = ((k + j : ℤ) : ℚ) := by
      rw [hq, hj]
      push_cast
      rfl
    have hbound : |(k + j : ℤ)| ≤ 2 ^ 53 := by
      have h1 : |((k + j : ℤ) : ℚ)| ≤ 2 ^ 53 := by
        rw [← hsum]
        linarith
      rw [← Int.cast_abs] at h1
      exact_mod_cast h1
    have hadd : JsNum.fin q + signedAmount h t = JsNum.fin (q + signedValue t) := by
      rw [signedAmount_of_int h t n hn]
      exact JsNum.fin_add_fin_of_int q (signedValue t) (k + j) hsum hbound
    show sumInOrder (signedAmount h) (JsNum.fin q + signedAmount h t) ts = _
    rw [hadd, ih (q + signedValue t) (k + j) hsum
      (fun u hu => hall u (List.mem_cons_of_mem t hu)) (by linarith),
      List.map_cons, List.sum_cons, add_assoc]

theorem loadState_saveState_numeralHost (s : AppState) :
    loadState numeralHost (saveState numeralHost s) = s :=
  loadState_saveState numeralHost s (numeralHost_faithful s)

/-- C1 as stated fails. The stored document has starting balance 10 and one
record of type `transfer` and amount 50: `calculateTotal()` subtracts the
record and returns -40, while the starting balance plus the income amounts
minus the expense amounts is 10. -/
theorem calculateTotal_transfer_counterexample :
    calculateTotal numeralHost (saveState numeralHost transferDoc) = JsNum.fin (-40)
      ∧ runningTotalClaimed numeralHost
          (loadState numeralHost (saveState numeralHost transferDoc)) = JsNum.fin 10 := by
  have hneg : JsNum.fin 0 + -(JsNum.fin 50) = JsNum.fin (-50) := by
    rw [JsNum.neg_fin, JsNum.fin_add_fin_of_int 0 (-50) (-50) (by norm_num) (by norm_num)]
    norm_num
  constructor
  · rw [calculateTotal_eq, loadState_saveState_numeralHost]
    show JsNum.fin 10 + (JsNum.fin 0 + -(JsNum.fin 50)) = _
    rw [hneg, JsNum.fin_add_fin_of_int 10 (-50) (-40) (by norm_num) (by norm_num)]
    norm_num
  · rw [loadState_saveState_numeralHost]
    show JsNum.fin 10 + JsNum.fin 0 + -(JsNum.fin 0) = _
    rw [JsNum.neg_fin, JsNum.fin_add_fin_of_int 10 0 10 (by norm_num) (by norm_num),
      JsNum.fin_add_fin_of_int (10 + 0) (-0) 10 (by norm_num) (by norm_num)]
    norm_num

/-- C1, amended. For every persisted document `calculateTotal()` is the
starting balance (read as a number, 0 when absent) plus the sum, taken record
by record in document order from 0, of the amount of each income record and of
minus the amount of each record of any other type, whatever the dates and
categories, every addition being that of doubles. When the starting balance
and all amounts are stored integers whose magnitudes add up to at most `2 ^ 53`
no addition rounds, and the total is exactly the starting balance plus the sum
of the income amounts minus the sum of the amounts of all other records. -/
theorem calculateTotal_inOrder (h : Host) (ls : Storage) :
    calculateTotal h ls = runningTotalInOrder h (loadState h ls)
      ∧ (∀ b : ℤ, (loadState h ls).startingBalance = some (.num b) →
          (∀ t ∈ txsOf (loadState h ls), IntAmount t) →
          |(b : ℚ)| + absTotal (txsOf (loadState h ls)) ≤ 2 ^ 53 →
          calculateTotal h ls
            = JsNum.fin (b + (((txsOf (loadState h ls)).filter isIncome).map numValue).sum
                - (((txsOf (loadState h ls)).filter isOther).map numValue).sum)) := by
  refine ⟨calculateTotal_eq h ls, ?_⟩
  intro b hb hall hbound
  have habs : (0 : ℚ) ≤ |(b : ℚ)| := abs_nonneg _
  have htot := absTotal_nonneg (txsOf (loadState h ls))
  have hsum := sumInOrder_signed_exact h (txsOf (loadState h ls)) 0 0 (by simp) hall
    (by rw [abs_zero]; linarith)
  obtain ⟨m, hm⟩ := sum_signedValue_int (txsOf (loadState h ls)) hall
  have hle := abs_sum_signedValue_le (txsOf (loadState h ls))
  have hbal : balanceNumber h (loadState h ls) = JsNum.fin b := by
    unfold balanceNumber
    rw [hb]
  have hint : (b : ℚ) + (0 + ((txsOf (loadState h ls)).map signedValue).sum)
      = ((b + m : ℤ) : ℚ) := by
    rw [hm]
    push_cast
    ring
  have hbnd : |(b + m : ℤ)| ≤ 2 ^ 53 := by
    have h1 : |((b + m : ℤ) : ℚ)| ≤ 2 ^ 53 := by
      rw [← hint, zero_add]
      calc |(b : ℚ) + ((txsOf (loadState h ls)).map signedValue).sum|
          ≤ |(b : ℚ)| + |((txsOf (loadState h ls)).map signedValue).sum| := abs_add _ _
        _ ≤ 2 ^ 53 := by linarith
    rw [← Int.cast_abs] at h1
    exact_mod_cast h1
  rw [calculateTotal_eq, runningTotalInOrder, hbal, hsum,
    JsNum.fin_add_fin_of_int _ _ (b + m) hint hbnd, zero_add, sum_signedValue_regroup]
  congr 1
  ring

/-- The witness of C1, amended: in the document of the scenario (income 1000,
expense 200, starting balance 0) the amounts are integers within range, and
the total is 0 + 1000 - 200 = 800. -/
theorem calculateTotal_inOrder_witness :
    calculateTotal numeralHost scenarioStorage = JsNum.fin 800 := by
  have hload := loadState_scenarioStorage
  have htx : txsOf (loadState numeralHost scenarioStorage)
      = [{ salaryTx with id := some "tx_k3v9q1z" }, { foodTx with id := some "tx_p7m2x4c" }] := by
    rw [hload]
    rfl
  have hb : (loadState numeralHost scenarioStorage).startingBalance
      = some (.num ((0 : ℤ) : ℚ)) := by
    rw [hload]
    simp [defaultState]
  have hall : ∀ t ∈ txsOf (loadState numeralHost scenarioStorage), IntAmount t := by
    rw [htx]
    intro t ht
    simp only [List.mem_cons, List.mem_singleton, List.not_mem_nil, or_false] at ht
    rcases ht with ht | ht
    · rw [ht]
      exact ⟨1000, by simp [salaryTx]⟩
    · rw [ht]
      exact ⟨200, by simp [foodTx]⟩
  have hbound : |((0 : ℤ) : ℚ)| + absTotal (txsOf (loadState numeralHost scenarioStorage))
      ≤ 2 ^ 53 := by
    rw [htx]
    simp [absTotal, numValue, salaryTx, foodTx]
    norm_num
  rw [(calculateTotal_inOrder numeralHost scenarioStorage).2 0 hb hall hbound, htx]
  have h1 : isIncome { salaryTx with id := some "tx_k3v9q1z" } = true := by decide
  have h2 : isIncome { foodTx with id := some "tx_p7m2x4c" } = false := by decide
  have h3 : isOther { salaryTx with id := some "tx_k3v9q1z" } = false := by decide
  have h4 : isOther { foodTx with id := some "tx_p7m2x4c" } = true := by decide
  simp only [List.filter_cons, h1, h2, h3, h4, List.filter_nil, List.map_cons, List.map_nil,
    List.sum_cons, List.sum_nil, if_true, Bool.false_eq_true, if_false]
  simp [numValue, salaryTx, foodTx]
  norm_num

/-! ## C2: adding a record -/

theorem sumInOrder_append (f : Transaction → JsNum) (l1 l2 : List Transaction) (a : JsNum) :
    sumInOrder f a (l1 ++ l2) = sumInOrder f (sumInOrder f a l1) l2 := by
  induction l1 generalizing a with
  | nil => rfl
  | cons t ts ih => exact ih _

theorem signedAmount_setId (h : Host) (tx : Transaction) (i : Option String) :
    signedAmount h { tx with id := i } = signedAmount h tx := rfl

theorem calculateTotal_addTransactionObj (h : Host) (hf : h.Faithful) (rnd : String)
    (tx : Transaction) (ls : Storage) :
    calculateTotal h (addTransactionObj h rnd tx ls)
      = balanceNumber h (loadState h ls)
        + (sumInOrder (signedAmount h) (JsNum.fin 0) (txsOf (loadState h ls))
            + signedAmount h tx) := by
  rw [calculateTotal_eq, loadState_addTransactionObj h hf]
  show balanceNumber h (loadState h ls)
    + sumInOrder (signedAmount h) (JsNum.fin 0)
        (txsOf (loadState h ls) ++ [{ tx with id := some (idOrFresh rnd tx) }]) = _
  rw [sumInOrder_append]
  rfl

theorem roundD_two_pow_53_add_one :
    roundD (9007199254740992 + 1) = JsNum.fin 9007199254740992 := by
  obtain ⟨hu, hf⟩ := roundD_eval (9007199254740992 + 1) 53 (2 ^ 52) (by norm_num)
    (by norm_num [abs_of_pos]) (by norm_num [abs_of_pos]) (by norm_num) (by norm_num)
    (by norm_num)
  unfold roundD roundHalfEven
  rw [hf, hu]
  norm_num

theorem roundD_two_pow_53_add_two :
    roundD (9007199254740992 + 2) = JsNum.fin 9007199254740994 := by
  have h := roundD_of_scaled (9007199254740992 + 2) (2 ^ 52 + 1) 1 (by norm_num) (by norm_num)
    (by norm_num) (by norm_num [abs_of_pos])
  rw [h]
  norm_num

/-- C2 as stated fails. The stored document has starting balance `2 ^ 53` and
one income record of amount 1, so the total is `2 ^ 53` (the sum `2 ^ 53 + 1`
rounds to even). After `addTransactionObj` of an income record of amount 1 the
total is `2 ^ 53 + 2`: it has grown by 2, not by 1, and it is not the prior
total plus 1 in the arithmetic of doubles either, which is `2 ^ 53`. -/
theorem addTransactionObj_total_counterexample :
    calculateTotal numeralHost (saveState numeralHost bigDoc) = JsNum.fin 9007199254740992
      ∧ calculateTotal numeralHost
          (addTransactionObj numeralHost "p7m2x4c" incomeOne (saveState numeralHost bigDoc))
        = JsNum.fin 9007199254740994
      ∧ calculateTotal numeralHost (saveState numeralHost bigDoc) + JsNum.fin 1
        = JsNum.fin 9007199254740992 := by
  have h01 : JsNum.fin 0 + JsNum.fin 1 = JsNum.fin 1 := by
    rw [JsNum.fin_add_fin_of_int 0 1 1 (by norm_num) (by norm_num)]
    norm_num
  have h11 : JsNum.fin 1 + JsNum.fin 1 = JsNum.fin 2 := by
    rw [JsNum.fin_add_fin_of_int 1 1 2 (by norm_num) (by norm_num)]
    norm_num
  have hbig1 : JsNum.fin 9007199254740992 + JsNum.fin 1 = JsNum.fin 9007199254740992 :=
    roundD_two_pow_53_add_one
  have hbig2 : JsNum.fin 9007199254740992 + JsNum.fin 2 = JsNum.fin 9007199254740994 :=
    roundD_two_pow_53_add_two
  have hbefore : calculateTotal numeralHost (saveState numeralHost bigDoc)
      = JsNum.fin 9007199254740992 := by
    rw [calculateTotal_eq, loadState_saveState_numeralHost]
    show JsNum.fin 9007199254740992 + (JsNum.fin 0 + JsNum.fin 1) = _
    rw [h01, hbig1]
  refine ⟨hbefore, ?_, ?_⟩
  · rw [calculateTotal_addTransactionObj numeralHost numeralHost_faithful,
      loadState_saveState_numeralHost]
    show JsNum.fin 9007199254740992 + (JsNum.fin 0 + JsNum.fin 1 + JsNum.fin 1) = _
    rw [h01, h11, hbig2]
  · rw [hbefore, hbig1]

theorem abs_add_three (b σ a : ℤ) (hb : |b| + |σ| + |a| ≤ 2 ^ 53) :
    |σ + a| ≤ 2 ^ 53 ∧ |σ - a| ≤ 2 ^ 53 ∧ |b + σ| ≤ 2 ^ 53
      ∧ |b + (σ + a)| ≤ 2 ^ 53 ∧ |b + (σ - a)| ≤ 2 ^ 53 := by
  have h1 := abs_nonneg b
  have h2 := abs_nonneg σ
  have h3 := abs_nonneg a
  refine ⟨?_, ?_, ?_, ?_, ?_⟩
  · exact le_trans (abs_add σ a) (by omega)
  · exact le_trans (abs_sub σ a) (by omega)
  · exact le_trans (abs_add b σ) (by omega)
  · exact le_trans (abs_add b (σ + a)) (le_trans (add_le_add_left (abs_add σ a) _) (by omega))
  · exact le_trans (abs_add b (σ - a)) (le_trans (add_le_add_left (abs_sub σ a) _) (by omega))

/-- C2, amended. On a host whose codec round-trips, for every persisted
document and every amount `A`: with `B` the starting balance and `S` the sum in
document order of the signed amounts of the stored records, the total is
`B + S`; after `addTransactionObj` of an income record of amount `A` it is
`B + (S + A)` and after an expense record of amount `A` it is `B + (S - A)`,
every operation being that of doubles: the amount joins the sum of the records
before the starting balance is added. When `B`, `S` and `A` are integers with
`|B| + |S| + |A| ≤ 2 ^ 53` no operation rounds, and the new total is the prior
total plus, respectively minus, exactly `A`. -/
theorem addTransactionObj_calculateTotal (h : Host) (hf : h.Faithful) (rnd : String)
    (tx : Transaction) (ls : Storage) (A : ℚ) (hA : tx.amount = some (.num A)) :
    calculateTotal h ls
        = balanceNumber h (loadState h ls)
          + sumInOrder (signedAmount h) (JsNum.fin 0) (txsOf (loadState h ls))
      ∧ (tx.type = some "income" →
          calculateTotal h (addTransactionObj h rnd tx ls)
            = balanceNumber h (loadState h ls)
              + (sumInOrder (signedAmount h) (JsNum.fin 0) (txsOf (loadState h ls))
                  + JsNum.fin A))
      ∧ (tx.type = some "expense" →
          calculateTotal h (addTransactionObj h rnd tx ls)
            = balanceNumber h (loadState h ls)
              + (sumInOrder (signedAmount h) (JsNum.fin 0) (txsOf (loadState h ls))
                  - JsNum.fin A))
      ∧ (∀ b σ a : ℤ, balanceNumber h (loadState h ls) = JsNum.fin b →
          sumInOrder (signedAmount h) (JsNum.fin 0) (txsOf (loadState h ls)) = JsNum.fin σ →
          A = a → |b| + |σ| + |a| ≤ 2 ^ 53 →
          calculateTotal h ls = JsNum.fin (b + σ)
            ∧ (tx.type = some "income" →
                calculateTotal h (addTransactionObj h rnd tx ls) = JsNum.fin (b + σ + a))
            ∧ (tx.type = some "expense" →
                calculateTotal h (addTransactionObj h rnd tx ls) = JsNum.fin (b + σ - a))) := by
  have hinc : tx.type = some "income" → signedAmount h tx = JsNum.fin A := by
    intro ht
    unfold signedAmount isIncome amountOf
    simp [ht, hA, toNumber]
  have hexp : tx.type = some "expense" → signedAmount h tx = -(JsNum.fin A) := by
    intro ht
    unfold signedAmount isIncome amountOf
    simp [ht, hA, toNumber]
  have hafter := calculateTotal_addTransactionObj h hf rnd tx ls
  refine ⟨calculateTotal_eq h ls, ?_, ?_, ?_⟩
  · intro ht
    rw [hafter, hinc ht]
  · intro ht
    rw [hafter, hexp ht, JsNum.sub_def]
  · intro b σ a hB hS ha hbound
    obtain ⟨h1, h2, h3, h4, h5⟩ := abs_add_three b σ a hbound
    refine ⟨?_, ?_, ?_⟩
    · rw [calculateTotal_eq, runningTotalInOrder, hB, hS,
        JsNum.fin_add_fin_of_int b σ (b + σ) (by push_cast; rfl) h3]
    · intro ht
      rw [hafter, hinc ht, hB, hS, ha,
        JsNum.fin_add_fin_of_int σ a (σ + a) (by push_cast; rfl) h1,
        JsNum.fin_add_fin_of_int b (σ + a) (b + (σ + a)) (by push_cast; rfl) h4]
      congr 1
      ring
    · intro ht
      rw [hafter, hexp ht, hB, hS, ha, JsNum.neg_fin,
        JsNum.fin_add_fin_of_int σ (-a) (σ - a) (by push_cast; ring) h2,
        JsNum.fin_add_fin_of_int b (σ + -a) (b + (σ - a)) (by push_cast; ring) h5]
      congr 1
      ring

theorem sumInOrder_salaryStorage :
    sumInOrder (signedAmount numeralHost) (JsNum.fin 0)
        (txsOf (loadState numeralHost salaryStorage)) = JsNum.fin ((1000 : ℤ) : ℚ) := by
  rw [loadState_salaryStorage]
  show JsNum.fin 0 + JsNum.fin 1000 = _
  rw [JsNum.fin_add_fin_of_int 0 1000 1000 (by norm_num) (by norm_num)]
  norm_num

/-- The witness of C2, amended: from the absent entry, adding income 1000
gives the total 1000, and adding expense 200 then gives 800. -/
theorem addTransactionObj_calculateTotal_witness :
    calculateTotal numeralHost salaryStorage = JsNum.fin 1000
      ∧ calculateTotal numeralHost scenarioStorage = JsNum.fin 800 := by
  constructor
  · have h := ((addTransactionObj_calculateTotal numeralHost numeralHost_faithful "k3v9q1z"
      salaryTx none 1000 rfl).2.2.2 0 0 1000 rfl rfl (by norm_num) (by norm_num)).2.1 rfl
    rw [salaryStorage, h]
    norm_num
  · have h := ((addTransactionObj_calculateTotal numeralHost numeralHost_faithful "p7m2x4c"
      foodTx salaryStorage 200 rfl).2.2.2 0 1000 200
        (by rw [loadState_salaryStorage]; rfl) sumInOrder_salaryStorage (by norm_num)
        (by norm_num)).2.2 rfl
    rw [scenarioStorage, h]
    norm_num

/-! ## C3: length and ids along a sequence of calls -/

theorem filter_ne_length (txs : List Transaction) (id : String)
    (hnd : (txs.map Transaction.id).Nodup) (hmem : some id ∈ txs.map Transaction.id) :
    (txs.filter (fun t => decide (t.id ≠ some id))).length + 1 = txs.length := by
  induction txs with
  | nil => simp at hmem
  | cons t ts ih =>
    rw [List.map_cons, List.nodup_cons] at hnd
    by_cases ht : t.id = some id
    · have hnot : ∀ u ∈ ts, decide (u.id ≠ some id) = true := by
        intro u hu
        have hne : u.id ≠ some id := by
          intro hc
          exact hnd.1 (by rw [ht, ← hc]; exact List.mem_map_of_mem _ hu)
        simpa using hne
      rw [List.filter_cons, if_neg (by simpa using ht), List.filter_eq_self.mpr hnot,
        List.length_cons]
    · have hin : some id ∈ ts.map Transaction.id := by
        rw [List.map_cons, List.mem_cons] at hmem
        rcases hmem with hc | hc
        · exact absurd hc.symm ht
        · exact hc
      rw [List.filter_cons, if_pos (by simpa using ht), List.length_cons, List.length_cons,
        ih hnd.2 hin]

theorem map_set_same {α β : Type} (f : α → β) (l : List α) (i : ℕ) (a old : α)
    (hold : l[i]? = some old) (hfa : f a = f old) : (l.set i a).map f = l.map f := by
  induction l generalizing i with
  | nil => simp
  | cons x xs ih =>
    cases i with
    | zero =>
      simp only [List.getElem?_cons_zero, Option.some.injEq] at hold
      simp [List.set, hfa, hold]
    | succ k =>
      simp only [List.getElem?_cons_succ] at hold
      simp [List.set, ih k hold]

theorem mergeTx_id_of_none (old patch : Transaction) (hp : patch.id = none) :
    (mergeTx old patch).id = old.id := by
  simp [mergeTx, hp]

theorem idsOf_updateTransactionObj (h : Host) (hf : h.Faithful) (id : String)
    (patch : Transaction) (ls : Storage) (hp : patch.id = none) :
    idsOf (loadState h (updateTransactionObj h id patch ls)) = idsOf (loadState h ls) := by
  rcases updateTransactionObj_cases h id patch ls with ⟨_, hu⟩ | ⟨i, old, hold, _, _, hu⟩
  · rw [hu]
  · rw [hu, loadState_saveState h _ (hf _)]
    have hids : ((txsOf (loadState h ls)).set i (mergeTx old patch)).map Transaction.id
        = (txsOf (loadState h ls)).map Transaction.id :=
      map_set_same _ _ i _ old hold (mergeTx_id_of_none old patch hp)
    simp only [idsOf, txsOf, Option.getD_some] at hids ⊢
    exact hids

theorem length_updateTransactionObj (h : Host) (hf : h.Faithful) (id : String)
    (patch : Transaction) (ls : Storage) :
    (txsOf (loadState h (updateTransactionObj h id patch ls))).length
      = (txsOf (loadState h ls)).length := by
  rcases updateTransactionObj_cases h id patch ls with ⟨_, hu⟩ | ⟨i, old, _, _, _, hu⟩
  · rw [hu]
  · rw [hu, loadState_saveState h _ (hf _)]
    simp [txsOf]

theorem nodup_set_of_not_mem {α : Type} (l : List α) (i : ℕ) (x : α) (hnd : l.Nodup)
    (hx : x ∉ l) : (l.set i x).Nodup := by
  induction l generalizing i with
  | nil => simp
  | cons y ys ih =>
    rw [List.nodup_cons] at hnd
    have hxy : x ≠ y := fun hc => hx (hc ▸ List.mem_cons_self _ _)
    have hxys : x ∉ ys := fun hc => hx (List.mem_cons_of_mem _ hc)
    cases i with
    | zero =>
      rw [List.set_cons_zero, List.nodup_cons]
      exact ⟨hxys, hnd.2⟩
    | succ k =>
      rw [List.set_cons_succ, List.nodup_cons]
      refine ⟨?_, ih k hnd.2 hxys⟩
      intro hmem
      rcases List.mem_or_eq_of_mem_set hmem with hm | hm
      · exact hnd.1 hm
      · exact hxy hm.symm

theorem nodup_ids_updateTransactionObj (h : Host) (hf : h.Faithful) (id : String)
    (patch : Transaction) (ls : Storage) (hnd : (idsOf (loadState h ls)).Nodup)
    (ha : ∀ v, patch.id = some v → v = id ∨ some v ∉ idsOf (loadState h ls)) :
    (idsOf (loadState h (updateTransactionObj h id patch ls))).Nodup := by
  rcases updateTransactionObj_cases h id patch ls with ⟨_, hu⟩ | ⟨i, old, hold, hid, _, hu⟩
  · rw [hu]
    exact hnd
  · rw [hu, loadState_saveState h _ (hf _)]
    show (((txsOf (loadState h ls)).set i (mergeTx old patch)).map Transaction.id).Nodup
    cases hp : patch.id with
    | none =>
      rw [map_set_same _ _ i _ old hold (mergeTx_id_of_none old patch hp)]
      exact hnd
    | some v =>
      have hm : (mergeTx old patch).id = some v := by simp [mergeTx, hp]
      rcases ha v hp with hv | hv
      · rw [map_set_same _ _ i _ old hold (by rw [hm, hid, hv])]
        exact hnd
      · rw [List.map_set, hm]
        exact nodup_set_of_not_mem _ i _ hnd hv

theorem applyOp_invariant (h : Host) (hf : h.Faithful) (ls : Storage) (op : Op)
    (hnd : (idsOf (loadState h ls)).Nodup) (ha : OpAllowed h ls op) :
    (idsOf (loadState h (applyOp h ls op))).Nodup
      ∧ (txsOf (loadState h (applyOp h ls op))).length + countDeletes [op]
          = (txsOf (loadState h ls)).length + countAdds [op] := by
  cases op with
  | add rnd tx =>
    simp only [applyOp, countAdds, countDeletes, OpAllowed] at ha ⊢
    rw [loadState_addTransactionObj h hf]
    constructor
    · simp only [idsOf, txsOf, Option.getD_some, List.map_append, List.map_cons, List.map_nil]
      rw [List.nodup_append]
      refine ⟨hnd, List.nodup_singleton _, ?_⟩
      intro x hx hx1
      rw [List.mem_singleton] at hx1
      exact ha (hx1 ▸ hx)
    · simp [txsOf]
  | update id patch =>
    simp only [applyOp, countAdds, countDeletes, OpAllowed] at ha ⊢
    rw [length_updateTransactionObj h hf]
    exact ⟨nodup_ids_updateTransactionObj h hf id patch ls hnd ha, rfl⟩
  | delete id =>
    simp only [applyOp, countAdds, countDeletes, OpAllowed] at ha ⊢
    rw [loadState_deleteTransactionObj h hf]
    constructor
    · simp only [idsOf, txsOf, Option.getD_some]
      exact List.Nodup.sublist ((List.filter_sublist _).map _) hnd
    · simp only [txsOf, Option.getD_some]
      exact filter_ne_length _ id hnd ha

theorem countAdds_cons (op : Op) (ops : List Op) :
    countAdds (op :: ops) = countAdds [op] + countAdds ops := by
  cases op <;> simp [countAdds, Nat.add_comm]

theorem countDeletes_cons (op : Op) (ops : List Op) :
    countDeletes (op :: ops) = countDeletes [op] + countDeletes ops := by
  cases op <;> simp [countDeletes, Nat.add_comm]

theorem runOps_invariant (h : Host) (hf : h.Faithful) (ops : List Op) :
    ∀ ls : Storage, (idsOf (loadState h ls)).Nodup → Disciplined h ls ops →
      (idsOf (loadState h (runOps h ops ls))).Nodup
        ∧ (txsOf (loadState h (runOps h ops ls))).length + countDeletes ops
            = (txsOf (loadState h ls)).length + countAdds ops := by
  induction ops with
  | nil =>
    intro ls hnd _
    exact ⟨hnd, rfl⟩
  | cons op ops ih =>
    intro ls hnd hd
    obtain ⟨ha, hrest⟩ := hd
    obtain ⟨hnd1, hlen1⟩ := applyOp_invariant h hf ls op hnd ha
    obtain ⟨hnd2, hlen2⟩ := ih (applyOp h ls op) hnd1 hrest
    refine ⟨hnd2, ?_⟩
    rw [countAdds_cons, countDeletes_cons]
    simp only [runOps, List.foldl_cons] at hlen2 ⊢
    omega

theorem runOps_delete_none_length (h : Host) (hf : h.Faithful) (id : String) :
    (txsOf (loadState h (runOps h [Op.delete id] none))).length = 0 := by
  simp only [runOps, List.foldl_cons, List.foldl_nil, applyOp]
  rw [loadState_deleteTransactionObj h hf]
  simp [txsOf, loadState, defaultState]

theorem runOps_add_add_ids (h : Host) (hf : h.Faithful) (r1 r2 : String)
    (t1 t2 : Transaction) :
    idsOf (loadState h (runOps h [Op.add r1 t1, Op.add r2 t2] none))
      = [some (idOrFresh r1 t1), some (idOrFresh r2 t2)] := by
  simp only [runOps, List.foldl_cons, List.foldl_nil, applyOp]
  rw [loadState_addTransactionObj h hf, loadState_addTransactionObj h hf]
  simp [idsOf, txsOf, loadState, defaultState]

theorem txsOf_add_add (h : Host) (hf : h.Faithful) (r1 r2 : String) (t1 t2 : Transaction) :
    txsOf (loadState h (runOps h [Op.add r1 t1, Op.add r2 t2] none))
      = [{ t1 with id := some (idOrFresh r1 t1) }, { t2 with id := some (idOrFresh r2 t2) }] := by
  simp only [runOps, List.foldl_cons, List.foldl_nil, applyOp]
  rw [loadState_addTransactionObj h hf, loadState_addTransactionObj h hf]
  simp [txsOf, loadState, defaultState]

/-- The ids after two adds and an update, by a patch that carries an id, of
the second record. -/
theorem runOps_add_add_update_ids (h : Host) (hf : h.Faithful) (r1 r2 : String)
    (t1 t2 : Transaction) (v : String) (hne : idOrFresh r1 t1 ≠ idOrFresh r2 t2) :
    idsOf (loadState h (runOps h
        [Op.add r1 t1, Op.add r2 t2, Op.update (idOrFresh r2 t2) (idPatch v)] none))
      = [some (idOrFresh r1 t1), some v] := by
  have happ : runOps h
      [Op.add r1 t1, Op.add r2 t2, Op.update (idOrFresh r2 t2) (idPatch v)] none
      = updateTransactionObj h (idOrFresh r2 t2) (idPatch v)
          (runOps h [Op.add r1 t1, Op.add r2 t2] none) := rfl
  have htx := txsOf_add_add h hf r1 r2 t1 t2
  rw [happ, updateTransactionObj_of_first h _ _ _ 1 { t2 with id := some (idOrFresh r2 t2) }
    (by rw [htx]; rfl) rfl
    (by
      intro j t hj hjt
      have hj0 : j = 0 := by omega
      rw [htx, hj0] at hjt
      simp only [List.getElem?_cons_zero, Option.some.injEq] at hjt
      rw [← hjt]
      intro hc
      exact hne (Option.some.inj hc)),
    loadState_saveState h _ (hf _), htx]
  rfl

/-- C3 as stated fails, in four ways. From the absent entry: (1) one
`deleteTransactionObj` of an id no record carries leaves the length 0, which
is not 0 adds minus 1 delete; (2) two `addTransactionObj` calls of records that
bring the same id leave two records with that id; (3) so do two calls of
records without id for which `Math.random()` gives the same text, the code
checking no generated id against the stored ones; (4) after two adds, an
`updateTransactionObj` whose patch carries the id of the other record leaves
two records with that id. -/
theorem runOps_length_ids_counterexample :
    ((txsOf (loadState numeralHost
        (runOps numeralHost [Op.delete "tx_gone"] none))).length : ℤ)
        ≠ (countAdds [Op.delete "tx_gone"] : ℤ) - (countDeletes [Op.delete "tx_gone"] : ℤ)
      ∧ ¬ (idsOf (loadState numeralHost
            (runOps numeralHost
              [Op.add "k3v9q1z" { salaryTx with id := some "t1" },
               Op.add "p7m2x4c" { foodTx with id := some "t1" }] none))).Nodup
      ∧ ¬ (idsOf (loadState numeralHost
            (runOps numeralHost
              [Op.add "k3v9q1z" salaryTx, Op.add "k3v9q1z" foodTx] none))).Nodup
      ∧ ¬ (idsOf (loadState numeralHost
            (runOps numeralHost
              [Op.add "k3v9q1z" salaryTx, Op.add "p7m2x4c" foodTx,
               Op.update (idOrFresh "p7m2x4c" foodTx) (idPatch "tx_k3v9q1z")] none))).Nodup := by
  refine ⟨?_, ?_, ?_, ?_⟩
  · rw [runOps_delete_none_length numeralHost numeralHost_faithful]
    simp [countAdds, countDeletes]
  · rw [runOps_add_add_ids numeralHost numeralHost_faithful]
    have e1 : idOrFresh "k3v9q1z" { salaryTx with id := some "t1" } = "t1" := by
      simp [idOrFresh]
    have e2 : idOrFresh "p7m2x4c" { foodTx with id := some "t1" } = "t1" := by
      simp [idOrFresh]
    rw [e1, e2]
    simp
  · rw [runOps_add_add_ids numeralHost numeralHost_faithful]
    have e1 : idOrFresh "k3v9q1z" salaryTx = "tx_k3v9q1z" := rfl
    have e2 : idOrFresh "k3v9q1z" foodTx = "tx_k3v9q1z" := rfl
    rw [e1, e2]
    simp
  · rw [runOps_add_add_update_ids numeralHost numeralHost_faithful "k3v9q1z" "p7m2x4c" salaryTx
      foodTx "tx_k3v9q1z" (by decide)]
    have e1 : idOrFresh "k3v9q1z" salaryTx = "tx_k3v9q1z" := rfl
    rw [e1]
    simp

/-- C3, amended. On a host whose codec round-trips, for every sequence of
add / update / delete calls from the absent entry in which every add stores an
id (brought by the record or generated) that no stored record carries at that
time, every update patch that carries an id carries the id the call names or
one that no stored record carries, and every delete names an id that some
stored record carries: the number of persisted records is the number of adds
minus the number of deletes, and the ids of the records are pairwise
distinct. -/
theorem runOps_length_ids (h : Host) (hf : h.Faithful) (ops : List Op)
    (hd : Disciplined h none ops) :
    ((txsOf (loadState h (runOps h ops none))).length : ℤ)
        = (countAdds ops : ℤ) - (countDeletes ops : ℤ)
      ∧ (idsOf (loadState h (runOps h ops none))).Nodup := by
  have hnd0 : (idsOf (loadState h none)).Nodup := by
    simp [idsOf, txsOf, loadState, defaultState]
  obtain ⟨hnd, hlen⟩ := runOps_invariant h hf ops none hnd0 hd
  refine ⟨?_, hnd⟩
  have h0 : (txsOf (loadState h none)).length = 0 := by
    simp [txsOf, loadState, defaultState]
  rw [h0] at hlen
  omega

theorem disciplined_scenario (h : Host) (hf : h.Faithful) (r1 r2 : String)
    (t1 t2 patch : Transaction) (hne : idOrFresh r1 t1 ≠ idOrFresh r2 t2)
    (hp : patch.id = none) :
    Disciplined h none
      [Op.add r1 t1, Op.add r2 t2, Op.update (idOrFresh r1 t1) patch,
        Op.delete (idOrFresh r1 t1)] := by
  have h1 : idsOf (loadState h (addTransactionObj h r1 t1 none)) = [some (idOrFresh r1 t1)] := by
    rw [loadState_addTransactionObj h hf]
    simp [idsOf, txsOf, loadState, defaultState]
  have h2 : idsOf (loadState h (addTransactionObj h r2 t2 (addTransactionObj h r1 t1 none)))
      = [some (idOrFresh r1 t1), some (idOrFresh r2 t2)] :=
    runOps_add_add_ids h hf r1 r2 t1 t2
  refine ⟨?_, ?_, ?_, ?_, trivial⟩
  · simp [OpAllowed, idsOf, txsOf, loadState, defaultState]
  · show some (idOrFresh r2 t2) ∉ idsOf (loadState h (addTransactionObj h r1 t1 none))
    rw [h1, List.mem_singleton]
    intro hc
    exact hne (Option.some.inj hc).symm
  · intro v hv
    rw [hp] at hv
    cases hv
  · show some (idOrFresh r1 t1) ∈ idsOf (loadState h (updateTransactionObj h _ patch _))
    rw [idsOf_updateTransactionObj h hf _ patch _ hp]
    show some (idOrFresh r1 t1)
      ∈ idsOf (loadState h (addTransactionObj h r2 t2 (addTransactionObj h r1 t1 none)))
    rw [h2]
    exact List.mem_cons_self _ _

/-- The witness of C3, amended: add the salary record and the food record,
patch the amount of the first and delete it; two adds and one delete leave
one record, and the ids are pairwise distinct. -/
theorem runOps_length_ids_witness :
    Disciplined numeralHost none
        [Op.add "k3v9q1z" salaryTx, Op.add "p7m2x4c" foodTx,
         Op.update (idOrFresh "k3v9q1z" salaryTx) (amountPatch 1500),
         Op.delete (idOrFresh "k3v9q1z" salaryTx)]
      ∧ ((txsOf (loadState numeralHost (runOps numeralHost
            [Op.add "k3v9q1z" salaryTx, Op.add "p7m2x4c" foodTx,
             Op.update (idOrFresh "k3v9q1z" salaryTx) (amountPatch 1500),
             Op.delete (idOrFresh "k3v9q1z" salaryTx)] none))).length : ℤ) = 1
      ∧ (idsOf (loadState numeralHost (runOps numeralHost
            [Op.add "k3v9q1z" salaryTx, Op.add "p7m2x4c" foodTx,
             Op.update (idOrFresh "k3v9q1z" salaryTx) (amountPatch 1500),
             Op.delete (idOrFresh "k3v9q1z" salaryTx)] none))).Nodup := by
  have hd := disciplined_scenario numeralHost numeralHost_faithful "k3v9q1z" "p7m2x4c"
    salaryTx foodTx (amountPatch 1500) (by decide) rfl
  have hres := runOps_length_ids numeralHost numeralHost_faithful _ hd
  refine ⟨hd, ?_, hres.2⟩
  rw [hres.1]
  simp [countAdds, countDeletes]

/-! ## C4: upsert of a budget -/

theorem saveBudgetObj_cases (h : Host) (b : Budget) (ls : Storage) :
    ((∀ x ∈ budgetsOf (loadState h ls), x.category ≠ b.category)
        ∧ saveBudgetObj h b ls
            = saveState h { loadState h ls with
                budgets := some (budgetsOf (loadState h ls) ++ [b]) })
      ∨ ∃ i old, (budgetsOf (loadState h ls))[i]? = some old ∧ old.category = b.category
          ∧ saveBudgetObj h b ls
              = saveState h { loadState h ls with
                  budgets := some ((budgetsOf (loadState h ls)).set i b) } := by
  cases hfi : (budgetsOf (loadState h ls)).findIdx?
      (fun x => decide (x.category = b.category)) with
  | none =>
    left
    have hno : ∀ x ∈ budgetsOf (loadState h ls), x.category ≠ b.category := by
      rw [List.findIdx?_eq_none_iff] at hfi
      intro x hx
      simpa using hfi x hx
    refine ⟨hno, ?_⟩
    unfold saveBudgetObj
    simp only [budgetsOf] at hfi
    simp only [hfi]
    rfl
  | some i =>
    right
    have hfi2 := hfi
    rw [List.findIdx?_eq_some_iff_getElem] at hfi2
    obtain ⟨hlt, hp, _⟩ := hfi2
    refine ⟨i, _, List.getElem?_eq_getElem hlt, by simpa using hp, ?_⟩
    unfold saveBudgetObj
    simp only [budgetsOf] at hfi
    simp only [hfi]
    rfl

theorem filter_set_of_nodup (b : Budget) (l : List Budget) (i : ℕ) (old : Budget)
    (hnd : (l.map Budget.category).Nodup) (hold : l[i]? = some old)
    (hcat : old.category = b.category) :
    (l.set i b).filter (fun x => decide (x.category = b.category)) = [b] := by
  induction l generalizing i with
  | nil => simp at hold
  | cons x xs ih =>
    rw [List.map_cons, List.nodup_cons] at hnd
    cases i with
    | zero =>
      simp only [List.getElem?_cons_zero, Option.some.injEq] at hold
      have hnone : ∀ y ∈ xs, ¬ (decide (y.category = b.category) = true) := by
        intro y hy hc
        have hyc : y.category = b.category := by simpa using hc
        exact hnd.1 (by rw [hold, hcat, ← hyc]; exact List.mem_map_of_mem _ hy)
      simp only [List.set, List.filter_cons, decide_True, if_true]
      rw [List.filter_eq_nil_iff.mpr hnone]
    | succ k =>
      simp only [List.getElem?_cons_succ] at hold
      have hx : ¬ x.category = b.category := by
        intro hc
        have hmem : old ∈ xs := List.getElem?_mem hold
        exact hnd.1 (by rw [hc, ← hcat]; exact List.mem_map_of_mem _ hmem)
      simp only [List.set, List.filter_cons, hx, decide_False]
      exact ih k hnd.2 hold

/-- C4. On a host whose codec round-trips, for every persisted document whose
budgets have pairwise distinct categories and every budget `b`: after
`saveBudgetObj(b)` the categories are still pairwise distinct and the entries
of the category of `b` are `b` alone; if an entry of that category existed the
number of budgets is unchanged and the list is the old one with that one entry
replaced by `b`, and otherwise it is the old list with `b` appended, one
longer. -/
theorem saveBudgetObj_upsert (h : Host) (hf : h.Faithful) (b : Budget) (ls : Storage)
    (hnd : ((budgetsOf (loadState h ls)).map Budget.category).Nodup) :
    ((budgetsOf (loadState h (saveBudgetObj h b ls))).map Budget.category).Nodup
      ∧ (budgetsOf (loadState h (saveBudgetObj h b ls))).filter
            (fun x => decide (x.category = b.category)) = [b]
      ∧ ((∃ x ∈ budgetsOf (loadState h ls), x.category = b.category) →
          (budgetsOf (loadState h (saveBudgetObj h b ls))).length
              = (budgetsOf (loadState h ls)).length
            ∧ ∃ i old, (budgetsOf (loadState h ls))[i]? = some old
                ∧ old.category = b.category
                ∧ budgetsOf (loadState h (saveBudgetObj h b ls))
                    = (budgetsOf (loadState h ls)).set i b)
      ∧ ((∀ x ∈ budgetsOf (loadState h ls), x.category ≠ b.category) →
          (budgetsOf (loadState h (saveBudgetObj h b ls))).length
              = (budgetsOf (loadState h ls)).length + 1
            ∧ budgetsOf (loadState h (saveBudgetObj h b ls))
                = budgetsOf (loadState h ls) ++ [b]) := by
  rcases saveBudgetObj_cases h b ls with ⟨hno, hs⟩ | ⟨i, old, hold, hcat, hs⟩
  · have hbs : budgetsOf (loadState h (saveBudgetObj h b ls))
        = budgetsOf (loadState h ls) ++ [b] := by
      rw [hs, loadState_saveState h _ (hf _)]
      rfl
    rw [hbs]
    refine ⟨?_, ?_, ?_, ?_⟩
    · rw [List.map_append, List.nodup_append]
      refine ⟨hnd, List.nodup_singleton _, ?_⟩
      intro c hc hc1
      simp only [List.map_cons, List.map_nil, List.mem_singleton] at hc1
      obtain ⟨x, hx, hxc⟩ := List.mem_map.mp hc
      exact hno x hx (hxc.trans hc1)
    · have hnone : ∀ y ∈ budgetsOf (loadState h ls),
          ¬ (decide (y.category = b.category) = true) := by
        intro y hy hc
        exact hno y hy (by simpa using hc)
      rw [List.filter_append, List.filter_eq_nil_iff.mpr hnone]
      simp
    · rintro ⟨x, hx, hxc⟩
      exact absurd hxc (hno x hx)
    · intro _
      exact ⟨by simp, rfl⟩
  · have hbs : budgetsOf (loadState h (saveBudgetObj h b ls))
        = (budgetsOf (loadState h ls)).set i b := by
      rw [hs, loadState_saveState h _ (hf _)]
      rfl
    rw [hbs]
    refine ⟨?_, filter_set_of_nodup b _ i old hnd hold hcat, ?_, ?_⟩
    · rw [map_set_same Budget.category _ i b old hold hcat.symm]
      exact hnd
    · intro _
      exact ⟨by simp, i, old, hold, hcat, rfl⟩
    · intro hno
      exact absurd hcat (hno old (List.getElem?_mem hold))

theorem budgetsOf_saveBudgetObj_none (h : Host) (hf : h.Faithful) (b : Budget) :
    budgetsOf (loadState h (saveBudgetObj h b none)) = [b] := by
  rcases saveBudgetObj_cases h b none with ⟨_, hs⟩ | ⟨i, old, hold, _, _⟩
  · rw [hs, loadState_saveState h _ (hf _)]
    rfl
  · simp [budgetsOf, loadState, defaultState] at hold

/-- The witness of C4: upsert Food/500 and then Food/300 from the absent entry;
the only Food entry is the one of limit 300 and the budgets are still one. -/
theorem saveBudgetObj_upsert_witness :
    (budgetsOf (loadState numeralHost
        (saveBudgetObj numeralHost food300 (saveBudgetObj numeralHost food500 none)))).filter
          (fun x => decide (x.category = some "Food")) = [food300]
      ∧ (budgetsOf (loadState numeralHost
          (saveBudgetObj numeralHost food300 (saveBudgetObj numeralHost food500 none)))).length
          = 1 := by
  have hbs := budgetsOf_saveBudgetObj_none numeralHost numeralHost_faithful food500
  have hnd : ((budgetsOf (loadState numeralHost
      (saveBudgetObj numeralHost food500 none))).map Budget.category).Nodup := by
    rw [hbs]
    exact List.nodup_singleton _
  obtain ⟨_, hfilter, hsame, _⟩ :=
    saveBudgetObj_upsert numeralHost numeralHost_faithful food300
      (saveBudgetObj numeralHost food500 none) hnd
  refine ⟨hfilter, ?_⟩
  have hex : ∃ x ∈ budgetsOf (loadState numeralHost (saveBudgetObj numeralHost food500 none)),
      x.category = food300.category := by
    rw [hbs]
    exact ⟨food500, List.mem_singleton_self _, rfl⟩
  rw [(hsame hex).1, hbs]
  rfl

/-! ## C5: what `loadState` returns -/

/-- C5 as stated fails. When the entry is the text `{}`, which parses,
`loadState()` returns the empty object: none of the three properties is
present, none has been defaulted. -/
theorem loadState_fields_counterexample :
    loadState emptyObjectHost (some "\x7b\x7d") = emptyDoc ∧ ¬ FieldsPresent emptyDoc := by
  constructor
  · simp [loadState, emptyObjectHost]
  · simp [FieldsPresent, emptyDoc]

/-- C5, amended. For every content of the storage entry `loadState()` returns a
document (it never throws). When the entry is absent, empty or does not parse,
the document is the default `{startingBalance:0,transactions:[],budgets:[]}`,
with its three properties present. When the text parses, the document is the
parsed value as it is: `loadState` fills in no missing property, each reader
defaults it where it reads (`s.startingBalance||0`, `s.transactions || []`,
`s.budgets || []`). -/
theorem loadState_spec (h : Host) (ls : Storage) :
    ((ls = none ∨ ls = some "" ∨ ∃ raw, ls = some raw ∧ h.parse raw = none) →
        loadState h ls = defaultState)
      ∧ (∀ raw s, ls = some raw → raw ≠ "" → h.parse raw = some s → loadState h ls = s)
      ∧ FieldsPresent defaultState
      ∧ (∀ s : AppState, (s.startingBalance = none → startOf h s = JsNum.fin 0)
          ∧ (s.transactions = none → txsOf s = [])
          ∧ (s.budgets = none → budgetsOf s = [])) := by
  refine ⟨?_, ?_, ?_, ?_⟩
  · rintro (hn | he | ⟨raw, hr, hp⟩)
    · rw [hn]
      rfl
    · rw [he]
      simp [loadState]
    · rw [hr]
      by_cases hraw : raw = ""
      · simp [loadState, hraw]
      · simp [loadState, hraw, hp]
  · intro raw s hr hraw hp
    rw [hr]
    simp [loadState, hraw, hp]
  · simp [FieldsPresent, defaultState]
  · intro s
    refine ⟨?_, ?_, ?_⟩
    · intro hs
      simp [startOf, hs, toNumber]
    · intro hs
      simp [txsOf, hs]
    · intro hs
      simp [budgetsOf, hs]

/-! ## C6: deleting an id no record carries -/

/-- C6. On a host whose codec round-trips, for every persisted document and
every id that none of its records carries, `deleteTransactionObj(id)` leaves
the document as it was: the same records in the same order (so the same
length), the same `startingBalance`, the same `budgets`; and when the document
has a `transactions` property, the same document. -/
theorem deleteTransactionObj_absent (h : Host) (hf : h.Faithful) (id : String) (ls : Storage)
    (hno : ∀ t ∈ txsOf (loadState h ls), t.id ≠ some id) :
    txsOf (loadState h (deleteTransactionObj h id ls)) = txsOf (loadState h ls)
      ∧ (txsOf (loadState h (deleteTransactionObj h id ls))).length
          = (txsOf (loadState h ls)).length
      ∧ (loadState h (deleteTransactionObj h id ls)).startingBalance
          = (loadState h ls).startingBalance
      ∧ (loadState h (deleteTransactionObj h id ls)).budgets = (loadState h ls).budgets
      ∧ ((loadState h ls).transactions.isSome = true →
          loadState h (deleteTransactionObj h id ls) = loadState h ls) := by
  have hkeep : (txsOf (loadState h ls)).filter (fun t => decide (t.id ≠ some id))
      = txsOf (loadState h ls) := by
    rw [List.filter_eq_self]
    intro t ht
    simpa using hno t ht
  have htx : txsOf (loadState h (deleteTransactionObj h id ls)) = txsOf (loadState h ls) := by
    rw [loadState_deleteTransactionObj h hf]
    simp only [txsOf, Option.getD_some] at hkeep ⊢
    exact hkeep
  refine ⟨htx, by rw [htx], ?_, ?_, ?_⟩
  · rw [loadState_deleteTransactionObj h hf]
  · rw [loadState_deleteTransactionObj h hf]
  · intro hsome
    rw [loadState_deleteTransactionObj h hf, hkeep]
    cases hs : loadState h ls with
    | mk sb txs bs =>
      rw [hs] at hsome
      cases txs with
      | none => simp at hsome
      | some l => rfl

/-- The witness of C6: after the first step of the scenario, deleting the id
`tx_gone`, which the one record does not carry, leaves that one record. -/
theorem deleteTransactionObj_absent_witness :
    txsOf (loadState numeralHost (deleteTransactionObj numeralHost "tx_gone" salaryStorage))
      = [{ salaryTx with id := some "tx_k3v9q1z" }] := by
  have hno : ∀ t ∈ txsOf (loadState numeralHost salaryStorage), t.id ≠ some "tx_gone" := by
    rw [loadState_salaryStorage]
    intro t ht
    simp only [txsOf, Option.getD_some, List.mem_singleton] at ht
    rw [ht]
    decide
  rw [(deleteTransactionObj_absent numeralHost numeralHost_faithful "tx_gone" salaryStorage
    hno).1, loadState_salaryStorage]
  rfl

/-! ## C7: the spend of a category in the month -/

theorem slice07_empty : slice07 "" = "" := rfl

theorem dateInMonth_eq_datePrefixIs (key : String) (hkey : key.length = 7)
    (t : Transaction) : dateInMonth key t = datePrefixIs key t := by
  unfold dateInMonth datePrefixIs
  cases hd : t.date with
  | none => rfl
  | some d =>
    by_cases he : d = ""
    · subst he
      have hne : ¬ slice07 "" = key := by
        intro hc
        rw [slice07_empty] at hc
        rw [← hc] at hkey
        simp at hkey
      simp [hne]
    · simp [he]

theorem foldl_spentStep (h : Host) (key c : String) (txs : List Transaction) :
    ∀ a : JsNum, (∀ r : ℚ, a = JsNum.fin r → roundD r = JsNum.fin r) →
      txs.foldl (spentStep h key c) a
        = sumInOrder (amountOrZero h) a
            (txs.filter (fun t => decide (t.category = some c)
              && decide (t.type = some "expense") && dateInMonth key t)) := by
  induction txs with
  | nil =>
    intro a _
    rfl
  | cons t ts ih =>
    intro a ha
    by_cases hp : (decide (t.category = some c) && decide (t.type = some "expense")
        && dateInMonth key t) = true
    · have hstep : spentStep h key c a t = a + amountOrZero h t := by
        unfold spentStep amountOrZero
        rw [if_pos hp]
      rw [List.foldl_cons, List.filter_cons, if_pos hp, hstep,
        ih _ (JsNum.rep_add a (amountOrZero h t))]
      rfl
    · have hstep : spentStep h key c a t = a := by
        unfold spentStep
        rw [if_neg hp]
        exact JsNum.add_zero_of_rep a ha
      rw [List.foldl_cons, List.filter_cons, if_neg hp, hstep, ih a ha]

theorem amountOrZero_num (h : Host) (t : Transaction) (q : ℚ)
    (hq : t.amount = some (.num q)) : amountOrZero h t = JsNum.fin q := by
  rw [amountOrZero, hq, toNumber, JsNum.orZero_fin]

/-- C7. For every persisted document, every category `c` and every month key
`key` of the form `YYYY-MM` (7 characters): `spentForCategoryThisMonth(c)` is
the sum, taken in document order from 0, of the amounts
(`Number(t.amount) || 0`, the amount itself when it is a number) of exactly the
records of type `expense`, of category `c` and with a date whose first 7
characters are `key`; it is 0 when no record is such. -/
theorem spentForCategoryThisMonth_eq (h : Host) (key c : String) (ls : Storage)
    (hkey : key.length = 7) :
    spentForCategoryThisMonth h key c ls
        = sumInOrder (amountOrZero h) (JsNum.fin 0)
            ((txsOf (loadState h ls)).filter (countsFor key c))
      ∧ ((∀ t ∈ txsOf (loadState h ls), countsFor key c t = false) →
          spentForCategoryThisMonth h key c ls = JsNum.fin 0)
      ∧ (∀ t q, t.amount = some (.num q) → amountOrZero h t = JsNum.fin q) := by
  have hcond : ∀ t : Transaction,
      (decide (t.category = some c) && decide (t.type = some "expense") && dateInMonth key t)
        = countsFor key c t := by
    intro t
    rw [countsFor, dateInMonth_eq_datePrefixIs key hkey,
      Bool.and_comm (decide (t.category = some c))]
  have hmain : spentForCategoryThisMonth h key c ls
      = sumInOrder (amountOrZero h) (JsNum.fin 0)
          ((txsOf (loadState h ls)).filter (countsFor key c)) := by
    show (txsOf (loadState h ls)).foldl (spentStep h key c) (JsNum.fin 0) = _
    rw [foldl_spentStep h key c _ (JsNum.fin 0) (fun r hr => by
      injection hr with hr
      rw [← hr]
      exact roundD_zero)]
    congr 1
    exact List.filter_congr (fun t _ => hcond t)
  refine ⟨hmain, ?_, fun t q hq => amountOrZero_num h t q hq⟩
  intro hnone
  rw [hmain, List.filter_eq_nil_iff.mpr (fun t ht => by simp [hnone t ht])]
  rfl

theorem txsOf_scenarioStorage :
    txsOf (loadState numeralHost scenarioStorage)
      = [{ salaryTx with id := some "tx_k3v9q1z" }, { foodTx with id := some "tx_p7m2x4c" }] := by
  rw [loadState_scenarioStorage]
  rfl

/-- The witness of C7: with the month fixed to January 2024, after income 1000
Salary on 2024-01-05 and expense 200 Food on 2024-01-10, the spend of `Food`
is 200. -/
theorem spentForCategoryThisMonth_eq_witness :
    spentForCategoryThisMonth numeralHost "2024-01" "Food" scenarioStorage = JsNum.fin 200 := by
  rw [(spentForCategoryThisMonth_eq numeralHost "2024-01" "Food" scenarioStorage (by decide)).1,
    txsOf_scenarioStorage]
  have h1 : countsFor "2024-01" "Food" { salaryTx with id := some "tx_k3v9q1z" } = false := by
    decide
  have h2 : countsFor "2024-01" "Food" { foodTx with id := some "tx_p7m2x4c" } = true := by
    decide
  simp only [List.filter_cons, h1, h2, List.filter_nil, if_true, Bool.false_eq_true, if_false]
  show JsNum.fin 0 + amountOrZero numeralHost { foodTx with id := some "tx_p7m2x4c" } = _
  rw [amountOrZero_num numeralHost _ 200 rfl,
    JsNum.fin_add_fin_of_int 0 200 200 (by norm_num) (by norm_num)]
  norm_num

/-! ## C8: the summary of the month -/

theorem summaryStep_eq (h : Host) (key : String) (acc : Summary) (t : Transaction) :
    summaryStep h key acc t
      = if dateInMonth key t = true then
          (if isIncome t = true then { acc with income := acc.income + amountOrZero h t }
           else { acc with expense := acc.expense + amountOrZero h t })
        else acc := by
  unfold summaryStep dateInMonth isIncome amountOrZero
  cases hd : t.date with
  | none => simp
  | some d =>
    by_cases he : d = ""
    · simp [he]
    · by_cases hs : slice07 d = key
      · by_cases ht : t.type = some "income"
        · simp [he, hs, ht]
        · simp [he, hs, ht]
      · simp [he, hs]

theorem foldl_summaryStep (h : Host) (key : String) (txs : List Transaction) (acc : Summary) :
    txs.foldl (summaryStep h key) acc
      = { income := sumInOrder (amountOrZero h) acc.income
            (txs.filter (fun t => isIncome t && dateInMonth key t))
          expense := sumInOrder (amountOrZero h) acc.expense
            (txs.filter (fun t => isOther t && dateInMonth key t)) } := by
  induction txs generalizing acc with
  | nil => rfl
  | cons t ts ih =>
    rw [List.foldl_cons, ih, summaryStep_eq]
    by_cases hd : dateInMonth key t = true
    · by_cases hi : isIncome t = true
      · have ho : isOther t = false := by simp [isOther, hi]
        simp only [List.filter_cons, hd, hi, ho, if_true, Bool.and_true, Bool.false_and,
          Bool.false_eq_true, if_false]
        rfl
      · have hi2 : isIncome t = false := by simpa using hi
        have ho : isOther t = true := by simp [isOther, hi2]
        simp only [List.filter_cons, hd, hi2, ho, if_true, Bool.and_true, Bool.false_and,
          Bool.false_eq_true, if_false]
        rfl
    · have hd2 : dateInMonth key t = false := by simpa using hd
      simp only [List.filter_cons, hd2, Bool.and_false, Bool.false_eq_true, if_false]

/-- C8 as stated fails. The stored document holds one record of type
`transfer`, amount 50, dated 2024-01-15. With the month fixed to January 2024
`monthSummary()` counts it as an expense and returns `expense: 50`, while the
sum of the amounts of the expense-type records of the month is 0. -/
theorem monthSummary_transfer_counterexample :
    monthSummary numeralHost "2024-01" (saveState numeralHost transferDoc)
        = { income := JsNum.fin 0, expense := JsNum.fin 50 }
      ∧ monthSummaryClaimed numeralHost "2024-01"
          (loadState numeralHost (saveState numeralHost transferDoc))
        = { income := JsNum.fin 0, expense := JsNum.fin 0 } := by
  have h50 : JsNum.fin 0 + JsNum.fin 50 = JsNum.fin 50 := by
    rw [JsNum.fin_add_fin_of_int 0 50 50 (by norm_num) (by norm_num)]
    norm_num
  have hd : dateInMonth "2024-01" transferTx = true := by decide
  have hi : isIncome transferTx = false := by decide
  have ho : isOther transferTx = true := by decide
  have he : isExpense transferTx = false := by decide
  have hp : datePrefixIs "2024-01" transferTx = true := by decide
  constructor
  · show (txsOf (loadState numeralHost (saveState numeralHost transferDoc))).foldl
      (summaryStep numeralHost "2024-01") ⟨JsNum.fin 0, JsNum.fin 0⟩ = _
    rw [foldl_summaryStep, loadState_saveState_numeralHost]
    show (⟨sumInOrder _ _ ([transferTx].filter _), sumInOrder _ _ ([transferTx].filter _)⟩
      : Summary) = _
    simp only [List.filter_cons, hd, hi, ho, List.filter_nil, if_true, Bool.and_true,
      Bool.false_and, Bool.false_eq_true, if_false]
    show (⟨JsNum.fin 0, JsNum.fin 0 + amountOrZero numeralHost transferTx⟩ : Summary) = _
    rw [amountOrZero_num numeralHost transferTx 50 rfl, h50]
  · rw [loadState_saveState_numeralHost]
    show (⟨sumInOrder _ _ ([transferTx].filter _), sumInOrder _ _ ([transferTx].filter _)⟩
      : Summary) = _
    simp only [List.filter_cons, hi, he, hp, List.filter_nil, if_true, Bool.and_true,
      Bool.false_and, Bool.false_eq_true, if_false]
    rfl

/-- C8, amended. For every persisted document and every month key `key` of the
form `YYYY-MM` (7 characters): `monthSummary()` is `{income, expense}` with
`income` the sum of the amounts of the income records and `expense` the sum of
the amounts of the records of any other type, both over the records whose
date has `key` as its first 7 characters and taken in document order from 0; a
record with no date or of another month changes neither field. -/
theorem monthSummary_eq (h : Host) (key : String) (ls : Storage) (hkey : key.length = 7) :
    monthSummary h key ls = monthSummarySpec h key (loadState h ls)
      ∧ (∀ (acc : Summary) (t : Transaction), datePrefixIs key t = false →
          summaryStep h key acc t = acc) := by
  constructor
  · show (txsOf (loadState h ls)).foldl (summaryStep h key) ⟨JsNum.fin 0, JsNum.fin 0⟩ = _
    rw [foldl_summaryStep, monthSummarySpec]
    have hin : (txsOf (loadState h ls)).filter (fun t => isIncome t && dateInMonth key t)
        = (txsOf (loadState h ls)).filter (fun t => isIncome t && datePrefixIs key t) :=
      List.filter_congr (fun t _ => by rw [dateInMonth_eq_datePrefixIs key hkey])
    have hot : (txsOf (loadState h ls)).filter (fun t => isOther t && dateInMonth key t)
        = (txsOf (loadState h ls)).filter (fun t => isOther t && datePrefixIs key t) :=
      List.filter_congr (fun t _ => by rw [dateInMonth_eq_datePrefixIs key hkey])
    rw [hin, hot]
  · intro acc t hd
    rw [summaryStep_eq, dateInMonth_eq_datePrefixIs key hkey, hd]
    rfl

/-- The witness of C8, amended: with the month fixed to January 2024, income
1000 on 2024-01-05 and expense 200 on 2024-01-10 give
`{income:1000, expense:200}`. -/
theorem monthSummary_eq_witness :
    monthSummary numeralHost "2024-01" scenarioStorage
      = { income := JsNum.fin 1000, expense := JsNum.fin 200 } := by
  rw [(monthSummary_eq numeralHost "2024-01" scenarioStorage (by decide)).1, monthSummarySpec,
    txsOf_scenarioStorage]
  have h1 : (isIncome { salaryTx with id := some "tx_k3v9q1z" }
      && datePrefixIs "2024-01" { salaryTx with id := some "tx_k3v9q1z" }) = true := by decide
  have h2 : (isIncome { foodTx with id := some "tx_p7m2x4c" }
      && datePrefixIs "2024-01" { foodTx with id := some "tx_p7m2x4c" }) = false := by decide
  have h3 : (isOther { salaryTx with id := some "tx_k3v9q1z" }
      && datePrefixIs "2024-01" { salaryTx with id := some "tx_k3v9q1z" }) = false := by decide
  have h4 : (isOther { foodTx with id := some "tx_p7m2x4c" }
      && datePrefixIs "2024-01" { foodTx with id := some "tx_p7m2x4c" }) = true := by decide
  simp only [List.filter_cons, h1, h2, h3, h4, List.filter_nil, if_true, Bool.false_eq_true,
    if_false]
  show (⟨JsNum.fin 0 + amountOrZero numeralHost _, JsNum.fin 0 + amountOrZero numeralHost _⟩
    : Summary) = _
  rw [amountOrZero_num numeralHost _ 1000 rfl, amountOrZero_num numeralHost _ 200 rfl,
    JsNum.fin_add_fin_of_int 0 1000 1000 (by norm_num) (by norm_num),
    JsNum.fin_add_fin_of_int 0 200 200 (by norm_num) (by norm_num)]
  norm_num

/-! ## C9: update of a record -/

theorem fieldMerged_orElse {α : Type} (old patch : Option α) :
    FieldMerged old patch (patch <|> old) := by
  constructor
  · intro hp
    rw [hp]
    rfl
  · intro v hp
    rw [hp]
    rfl

theorem shallowMerge_mergeTx (old patch : Transaction) :
    ShallowMerge old patch (mergeTx old patch) :=
  ⟨fieldMerged_orElse _ _, fieldMerged_orElse _ _, fieldMerged_orElse _ _,
    fieldMerged_orElse _ _, fieldMerged_orElse _ _, fieldMerged_orElse _ _⟩

/-- C9. For every persisted document, id and patch: if no record has the id,
`updateTransactionObj(id, patch)` leaves the storage entry as it is; if some
record has it, then (on a host whose codec round-trips) the first such record,
at position `i`, becomes the shallow merge of the old record with the patch,
and the length, the position of that record, every other record,
`startingBalance` and `budgets` are unchanged. -/
theorem updateTransactionObj_spec (h : Host) (hf : h.Faithful) (id : String)
    (patch : Transaction) (ls : Storage) :
    ((∀ t ∈ txsOf (loadState h ls), t.id ≠ some id) →
        updateTransactionObj h id patch ls = ls)
      ∧ (∀ (i : ℕ) (old : Transaction),
          (txsOf (loadState h ls))[i]? = some old → old.id = some id →
          (∀ (j : ℕ) (t : Transaction), j < i →
            (txsOf (loadState h ls))[j]? = some t → t.id ≠ some id) →
          ∃ merged, ShallowMerge old patch merged
            ∧ (txsOf (loadState h (updateTransactionObj h id patch ls)))[i]? = some merged
            ∧ (txsOf (loadState h (updateTransactionObj h id patch ls))).length
                = (txsOf (loadState h ls)).length
            ∧ (∀ j : ℕ, j ≠ i →
                (txsOf (loadState h (updateTransactionObj h id patch ls)))[j]?
                  = (txsOf (loadState h ls))[j]?)
            ∧ (loadState h (updateTransactionObj h id patch ls)).startingBalance
                = (loadState h ls).startingBalance
            ∧ (loadState h (updateTransactionObj h id patch ls)).budgets
                = (loadState h ls).budgets) := by
  refine ⟨updateTransactionObj_of_absent h id patch ls, ?_⟩
  intro i old hold hid hfirst
  have hlt : i < (txsOf (loadState h ls)).length := by
    rcases Nat.lt_or_ge i (txsOf (loadState h ls)).length with hlt | hge
    · exact hlt
    · rw [List.getElem?_eq_none hge] at hold
      cases hold
  have hload : loadState h (updateTransactionObj h id patch ls)
      = { loadState h ls with
          transactions := some ((txsOf (loadState h ls)).set i (mergeTx old patch)) } := by
    rw [updateTransactionObj_of_first h id patch ls i old hold hid hfirst,
      loadState_saveState h _ (hf _)]
  have htx : txsOf (loadState h (updateTransactionObj h id patch ls))
      = (txsOf (loadState h ls)).set i (mergeTx old patch) := by
    rw [hload]
    rfl
  refine ⟨mergeTx old patch, shallowMerge_mergeTx old patch, ?_, ?_, ?_, ?_, ?_⟩
  · rw [htx, List.getElem?_set_self hlt]
  · rw [htx, List.length_set]
  · intro j hj
    rw [htx, List.getElem?_set_ne (Ne.symm hj)]
  · rw [hload]
  · rw [hload]

theorem txsOf_salaryStorage :
    txsOf (loadState numeralHost salaryStorage) = [{ salaryTx with id := some "tx_k3v9q1z" }] := by
  rw [loadState_salaryStorage]
  rfl

/-- The witness of C9: after the first step of the scenario, patching the
amount of the stored record to 1500 leaves one record, the old one with the
new amount. -/
theorem updateTransactionObj_spec_witness :
    ∃ merged,
      (txsOf (loadState numeralHost
          (updateTransactionObj numeralHost "tx_k3v9q1z" (amountPatch 1500) salaryStorage)))[0]?
        = some merged
      ∧ merged.amount = some (.num 1500) ∧ merged.category = some "Salary"
      ∧ (txsOf (loadState numeralHost
          (updateTransactionObj numeralHost "tx_k3v9q1z" (amountPatch 1500)
            salaryStorage))).length = 1 := by
  have hold : (txsOf (loadState numeralHost salaryStorage))[0]?
      = some { salaryTx with id := some "tx_k3v9q1z" } := by
    rw [txsOf_salaryStorage]
    rfl
  obtain ⟨merged, hm, hget, hlen, _⟩ :=
    (updateTransactionObj_spec numeralHost numeralHost_faithful "tx_k3v9q1z" (amountPatch 1500)
      salaryStorage).2 0 _ hold rfl (fun j t hj _ => absurd hj (Nat.not_lt_zero j))
  refine ⟨merged, hget, hm.2.2.1.2 _ rfl, hm.2.2.2.2.1.1 rfl, ?_⟩
  rw [hlen, txsOf_salaryStorage]
  rfl

/-! ## C10: `loadState` right after `saveState`

The state handed to `saveState` is a value in memory; `JSON.stringify` writes a
`NaN` or an infinity in it as `null`. -/

theorem jsVal_toJson_toMem (v : JsVal) : v.toMem.toJson = v := by
  cases v <;> rfl

theorem memVal_toMem_toJson_iff (v : MemVal) :
    v.toJson.toMem = v ↔ v.isFinite = true := by
  cases v with
  | null => simp [MemVal.toJson, JsVal.toMem, MemVal.isFinite]
  | bool b => simp [MemVal.toJson, JsVal.toMem, MemVal.isFinite]
  | str s => simp [MemVal.toJson, JsVal.toMem, MemVal.isFinite]
  | num n => cases n <;> simp [MemVal.toJson, JsVal.toMem, MemVal.isFinite]

theorem option_map_toJson_toMem (o : Option JsVal) :
    o.map (MemVal.toJson ∘ JsVal.toMem) = o := by
  cases o with
  | none => rfl
  | some v => simp [jsVal_toJson_toMem]

theorem option_toMem_toJson_iff (o : Option MemVal) :
    o.map (JsVal.toMem ∘ MemVal.toJson) = o ↔ o.all MemVal.isFinite = true := by
  cases o with
  | none => simp
  | some v => simp [memVal_toMem_toJson_iff]

theorem transaction_toJson_toMem (t : Transaction) : t.toMem.toJson = t := by
  cases t
  simp [Transaction.toMem, MemTransaction.toJson, option_map_toJson_toMem]

theorem budget_toJson_toMem (b : Budget) : b.toMem.toJson = b := by
  cases b
  simp [Budget.toMem, MemBudget.toJson, option_map_toJson_toMem]

theorem memTransaction_toMem_toJson_iff (t : MemTransaction) :
    t.toJson.toMem = t ↔ t.amount.all MemVal.isFinite = true := by
  cases t
  simp [Transaction.toMem, MemTransaction.toJson, option_toMem_toJson_iff]

theorem memBudget_toMem_toJson_iff (b : MemBudget) :
    b.toJson.toMem = b ↔ b.limit.all MemVal.isFinite = true := by
  cases b
  simp [Budget.toMem, MemBudget.toJson, option_toMem_toJson_iff]

theorem list_map_eq_self_iff {α : Type} (f : α → α) (l : List α) :
    l.map f = l ↔ ∀ x ∈ l, f x = x := by
  induction l with
  | nil => simp
  | cons a l ih => simp [ih]

theorem option_list_toMem_toJson_iff {α β : Type} (f : α → β) (g : β → α) (p : α → Bool)
    (hfg : ∀ x, g (f x) = x ↔ p x = true) (o : Option (List α)) :
    o.map (List.map (g ∘ f)) = o ↔ o.all (List.all · p) = true := by
  cases o with
  | none => simp
  | some l =>
    have : l.map (g ∘ f) = l ↔ ∀ x ∈ l, (g ∘ f) x = x := list_map_eq_self_iff _ l
    simp [this, hfg]

theorem option_list_toJson_toMem {α β : Type} (f : α → β) (g : β → α)
    (hfg : ∀ x, g (f x) = x) (o : Option (List α)) :
    o.map (List.map (g ∘ f)) = o := by
  cases o with
  | none => rfl
  | some l =>
    have : g ∘ f = id := funext hfg
    simp [this]

/-- What `loadState` returned is written by `JSON.stringify` as it is. -/
theorem appState_toJson_toMem (s : AppState) : s.toMem.toJson = s := by
  cases s
  simp [AppState.toMem, MemState.toJson, option_map_toJson_toMem,
    option_list_toJson_toMem _ _ transaction_toJson_toMem,
    option_list_toJson_toMem _ _ budget_toJson_toMem]

/-- A state in memory is deep-equal to the document written for it exactly when
it holds no `NaN` and no infinity. -/
theorem memState_toMem_toJson_iff (m : MemState) :
    m.toJson.toMem = m ↔ m.allFinite = true := by
  cases m
  simp [AppState.toMem, MemState.toJson, MemState.allFinite, option_toMem_toJson_iff,
    option_list_toMem_toJson_iff _ _ _ memTransaction_toMem_toJson_iff,
    option_list_toMem_toJson_iff _ _ _ memBudget_toMem_toJson_iff, and_assoc]

/-- A value that `loadState` returns holds no `NaN` and no infinity. -/
theorem appState_allFinite_toMem (s : AppState) : s.toMem.allFinite = true := by
  rw [← memState_toMem_toJson_iff, appState_toJson_toMem]

/-- The value read right after a save, for any host. -/
theorem loadState_saveStateMem (h : Host) (m : MemState) :
    loadState h (saveStateMem h m)
      = if h.stringify m.toJson = "" then defaultState
        else (h.parse (h.stringify m.toJson)).getD defaultState := by
  unfold saveStateMem saveState loadState
  by_cases he : h.stringify m.toJson = ""
  · simp [he]
  · cases hp : h.parse (h.stringify m.toJson) <;> simp [he, hp]

theorem saveStartingBalance_infinity :
    saveStartingBalance numeralHost (some (.num (.inf false))) none
      = saveStateMem numeralHost infinityState := by
  rfl

/-- C10 as stated fails. On an empty store
`saveStartingBalance(Infinity)` hands `saveState` the state
`{startingBalance: Infinity, transactions: [], budgets: []}`
(`Number(v)||0` keeps an infinity).  `loadState()` right after returns
`{startingBalance: null, transactions: [], budgets: []}`, which is not
deep-equal to the state that was saved. -/
theorem loadState_saveState_counterexample :
    saveStartingBalance numeralHost (some (.num (.inf false))) none
        = saveStateMem numeralHost infinityState
    ∧ loadState numeralHost (saveStateMem numeralHost infinityState)
        = { startingBalance := some .null, transactions := some [], budgets := some [] }
    ∧ (loadState numeralHost (saveStateMem numeralHost infinityState)).toMem ≠ infinityState := by
  have hl : loadState numeralHost (saveStateMem numeralHost infinityState)
      = { startingBalance := some .null, transactions := some [], budgets := some [] } :=
    loadState_saveState_numeralHost infinityState.toJson
  refine ⟨saveStartingBalance_infinity, hl, ?_⟩
  rw [hl]
  decide

/-- C10, amended. `saveState(s)` stores the text of `s` with every `NaN` and
infinity written as `null` (the document `s.toJson`).

* A state that holds a `NaN` or an infinity is never read back deep-equal: the
  document read from the store holds neither.
* When `JSON.parse` gives back the document that `JSON.stringify` wrote (and
  the text is not empty), `loadState()` right after `saveState(s)` returns that
  document; it is deep-equal to `s` exactly when `s` holds no `NaN` and no
  infinity; and `saveState(loadState())` writes the same text again.
* Conversely `loadState()` returns that document only if the built-ins
  round-trip on it or it is the default document (the fallback of `loadState`).
* For any content of the store, when the built-ins round-trip on the document
  that `loadState()` returns, `loadState()` after `saveState(loadState())`
  returns the same document. -/
theorem loadState_saveState_roundtrip (h : Host) (m : MemState) :
    ((loadState h (saveStateMem h m)).toMem = m → m.allFinite = true)
    ∧ (h.RoundTripsAt m.toJson →
        loadState h (saveStateMem h m) = m.toJson
        ∧ ((loadState h (saveStateMem h m)).toMem = m ↔ m.allFinite = true)
        ∧ saveStateMem h (loadState h (saveStateMem h m)).toMem = saveStateMem h m)
    ∧ (loadState h (saveStateMem h m) = m.toJson →
        h.RoundTripsAt m.toJson ∨ m.toJson = defaultState)
    ∧ (∀ ls : Storage, h.RoundTripsAt (loadState h ls) →
        loadState h (saveStateMem h (loadState h ls).toMem) = loadState h ls) := by
  refine ⟨?_, ?_, ?_, ?_⟩
  · intro he
    rw [← he]
    exact appState_allFinite_toMem _
  · intro hr
    have hl : loadState h (saveStateMem h m) = m.toJson := loadState_saveState h _ hr
    refine ⟨hl, ?_, ?_⟩
    · rw [hl]
      exact memState_toMem_toJson_iff m
    · rw [hl]
      unfold saveStateMem
      rw [appState_toJson_toMem]
  · intro hl
    rw [loadState_saveStateMem] at hl
    by_cases he : h.stringify m.toJson = ""
    · rw [if_pos he] at hl
      exact Or.inr hl.symm
    · rw [if_neg he] at hl
      cases hp : h.parse (h.stringify m.toJson) with
      | none =>
        rw [hp] at hl
        exact Or.inr hl.symm
      | some s =>
        rw [hp] at hl
        have hs : s = m.toJson := hl
        exact Or.inl ⟨he, by rw [hp, hs]⟩
  · intro ls hr
    unfold saveStateMem
    rw [appState_toJson_toMem]
    exact loadState_saveState h _ hr

/-- The witness of C10, amended: the state with the salary and the
food record is read back as it was saved, and saving what was loaded writes the
same text. -/
theorem loadState_saveState_roundtrip_witness :
    loadState numeralHost (saveStateMem numeralHost (loadState numeralHost scenarioStorage).toMem)
        = loadState numeralHost scenarioStorage
    ∧ ((loadState numeralHost
          (saveStateMem numeralHost (loadState numeralHost scenarioStorage).toMem)).toMem
        = (loadState numeralHost scenarioStorage).toMem)
    ∧ saveStateMem numeralHost
          (loadState numeralHost
            (saveStateMem numeralHost (loadState numeralHost scenarioStorage).toMem)).toMem
        = saveStateMem numeralHost (loadState numeralHost scenarioStorage).toMem := by
  have hr : numeralHost.RoundTripsAt (loadState numeralHost scenarioStorage).toMem.toJson :=
    numeralHost_faithful _
  obtain ⟨h1, h2, h3⟩ :=
    (loadState_saveState_roundtrip numeralHost
      (loadState numeralHost scenarioStorage).toMem).2.1 hr
  refine ⟨?_, ?_, h3⟩
  · rw [h1, appState_toJson_toMem]
  · exact h2.mpr (appState_allFinite_toMem _)

/-! ## C11: a missing or non-numeric amount -/

theorem amountOrZero_withZeroAmount (h : Host) (t : Transaction) (hn : NonNumeric h t) :
    amountOrZero h (withZeroAmount t) = amountOrZero h t := by
  unfold NonNumeric at hn
  show (JsNum.fin 0).orZero = (toNumber h t.amount).orZero
  rw [hn, JsNum.orZero_fin]
  rfl

theorem summaryStep_withZeroAmount (h : Host) (key : String) (acc : Summary)
    (t : Transaction) (hn : NonNumeric h t) :
    summaryStep h key acc (withZeroAmount t) = summaryStep h key acc t := by
  rw [summaryStep_eq, summaryStep_eq, amountOrZero_withZeroAmount h t hn]
  rfl

theorem spentStep_withZeroAmount (h : Host) (key c : String) (acc : JsNum)
    (t : Transaction) (hn : NonNumeric h t) :
    spentStep h key c acc (withZeroAmount t) = spentStep h key c acc t := by
  have ha := amountOrZero_withZeroAmount h t hn
  unfold amountOrZero at ha
  unfold spentStep
  rw [ha]
  rfl

theorem totalStep_nonNumeric (h : Host) (acc : JsNum) (t : Transaction)
    (hn : NonNumeric h t) : totalStep h acc t = JsNum.nan := by
  unfold NonNumeric at hn
  unfold totalStep
  rw [hn]
  by_cases ht : t.type = some "income"
  · rw [if_pos ht, JsNum.add_nan]
  · rw [if_neg ht]
    exact JsNum.add_nan acc

theorem foldl_totalStep_nan (h : Host) (txs : List Transaction) :
    txs.foldl (totalStep h) JsNum.nan = JsNum.nan := by
  induction txs with
  | nil => rfl
  | cons t ts ih =>
    rw [List.foldl_cons, totalStep, JsNum.nan_add, ih]

/-- In `monthSummary` a record whose amount is missing or not numeric counts as
one of amount 0, wherever it stands in the document. -/
theorem monthSummary_withZeroAmount (h : Host) (key : String) (ls ls0 : Storage)
    (pre post : List Transaction) (t : Transaction) (hn : NonNumeric h t)
    (hls : txsOf (loadState h ls) = pre ++ t :: post)
    (hls0 : txsOf (loadState h ls0) = pre ++ withZeroAmount t :: post) :
    monthSummary h key ls = monthSummary h key ls0 := by
  show (txsOf (loadState h ls)).foldl (summaryStep h key) ⟨JsNum.fin 0, JsNum.fin 0⟩
    = (txsOf (loadState h ls0)).foldl (summaryStep h key) ⟨JsNum.fin 0, JsNum.fin 0⟩
  rw [hls, hls0, List.foldl_append, List.foldl_append, List.foldl_cons, List.foldl_cons,
    summaryStep_withZeroAmount h key _ t hn]

/-- In `spentForCategoryThisMonth` a record whose amount is missing or not
numeric counts as one of amount 0, wherever it stands in the document. -/
theorem spentForCategoryThisMonth_withZeroAmount (h : Host) (key c : String)
    (ls ls0 : Storage) (pre post : List Transaction) (t : Transaction)
    (hn : NonNumeric h t)
    (hls : txsOf (loadState h ls) = pre ++ t :: post)
    (hls0 : txsOf (loadState h ls0) = pre ++ withZeroAmount t :: post) :
    spentForCategoryThisMonth h key c ls = spentForCategoryThisMonth h key c ls0 := by
  show (txsOf (loadState h ls)).foldl (spentStep h key c) (JsNum.fin 0)
    = (txsOf (loadState h ls0)).foldl (spentStep h key c) (JsNum.fin 0)
  rw [hls, hls0, List.foldl_append, List.foldl_append, List.foldl_cons, List.foldl_cons,
    spentStep_withZeroAmount h key c _ t hn]

/-- In `calculateTotal` a record whose amount is missing or not numeric makes
the whole total `NaN`, wherever it stands in the document. -/
theorem calculateTotal_nonNumeric (h : Host) (ls : Storage)
    (pre post : List Transaction) (t : Transaction) (hn : NonNumeric h t)
    (hls : txsOf (loadState h ls) = pre ++ t :: post) :
    calculateTotal h ls = JsNum.nan := by
  rw [calculateTotal_eq_foldl, hls, List.foldl_append, List.foldl_cons,
    totalStep_nonNumeric h _ t hn, foldl_totalStep_nan, JsNum.add_nan]

theorem txsOf_add_none (h : Host) (hf : h.Faithful) (rnd : String) (tx : Transaction) :
    txsOf (loadState h (addTransactionObj h rnd tx none))
      = [] ++ { tx with id := some (idOrFresh rnd tx) } :: [] := by
  rw [loadState_addTransactionObj h hf]
  rfl

/-- C11 at the failing input. The income record of the scenario is stored
without an `amount` (from the absent entry). `calculateTotal()` is then `NaN`,
whereas with the amount replaced by 0 it is 0: the record does not contribute
0 to the total. On the same input `monthSummary()` and
`spentForCategoryThisMonth('Salary')`, which read `Number(t.amount) || 0`, do
give the result of the document with the amount replaced by 0. -/
theorem calculateTotal_missing_amount :
    calculateTotal numeralHost (addTransactionObj numeralHost "k3v9q1z" salaryNoAmount none)
        = JsNum.nan
      ∧ calculateTotal numeralHost
          (addTransactionObj numeralHost "k3v9q1z" (withZeroAmount salaryNoAmount) none)
        = JsNum.fin 0
      ∧ monthSummary numeralHost "2024-01"
          (addTransactionObj numeralHost "k3v9q1z" salaryNoAmount none)
        = monthSummary numeralHost "2024-01"
            (addTransactionObj numeralHost "k3v9q1z" (withZeroAmount salaryNoAmount) none)
      ∧ spentForCategoryThisMonth numeralHost "2024-01" "Salary"
          (addTransactionObj numeralHost "k3v9q1z" salaryNoAmount none)
        = spentForCategoryThisMonth numeralHost "2024-01" "Salary"
            (addTransactionObj numeralHost "k3v9q1z" (withZeroAmount salaryNoAmount) none) := by
  have hn : NonNumeric numeralHost
      { salaryNoAmount with id := some (idOrFresh "k3v9q1z" salaryNoAmount) } := rfl
  have hls := txsOf_add_none numeralHost numeralHost_faithful "k3v9q1z" salaryNoAmount
  have hls0 : txsOf (loadState numeralHost
        (addTransactionObj numeralHost "k3v9q1z" (withZeroAmount salaryNoAmount) none))
      = [] ++ withZeroAmount
          { salaryNoAmount with id := some (idOrFresh "k3v9q1z" salaryNoAmount) } :: [] := by
    rw [txsOf_add_none numeralHost numeralHost_faithful]
    rfl
  refine ⟨calculateTotal_nonNumeric numeralHost _ [] [] _ hn hls, ?_,
    monthSummary_withZeroAmount numeralHost "2024-01" _ _ [] [] _ hn hls hls0,
    spentForCategoryThisMonth_withZeroAmount numeralHost "2024-01" "Salary" _ _ [] [] _ hn
      hls hls0⟩
  rw [calculateTotal_addTransactionObj numeralHost numeralHost_faithful]
  show JsNum.fin 0 + (JsNum.fin 0 + JsNum.fin 0) = JsNum.fin 0
  rw [JsNum.zero_add_zero, JsNum.zero_add_zero]


end ExpenseTracker
